import Mathlib

/-!
Shallow embedding of the RECAP Recovery Planning Engine
(src/pages/Engine.tsx) and proofs about its specification.

Conventions of the embedding:
* JavaScript numbers are modelled as exact rationals; every statement
  proved here is about the idealised exact arithmetic of the source
  algorithms.
* Calendar dates are modelled as integer day numbers (both `today` and
  deadlines are midnight-normalised in the source, so their difference
  is a whole number of days); the weekday of a date is carried
  explicitly.
* `crypto.randomUUID()` is modelled by a fresh-id counter threaded
  through the computation; the literal ids `buffer-<n>` get their own
  constructor.
* Presentational fields (tailwind colour strings, advisory messages)
  are kept verbatim where the engine logic reads or writes them.
-/

namespace Recap

/-! ## Data model (src/types.ts) -/

inductive DifficultyLevel
  | Low
  | Moderate
  | High
deriving DecidableEq, Repr

inductive StressLevel
  | Low
  | Moderate
  | High
deriving DecidableEq, Repr

inductive LearningPace
  | Slow
  | Moderate
  | Fast
deriving DecidableEq, Repr

inductive PressureCategory
  | Critical
  | High
  | Moderate
  | Low
deriving DecidableEq, Repr

inductive PriorityTier
  | CriticalPriority
  | HighPriority
  | MediumPriority
  | LowPriority
deriving DecidableEq, Repr

/-- Task ids in the source are strings: fresh UUIDs from
`crypto.randomUUID()` (modelled by a counter) or the literal
`buffer-<dayNumber>`. -/
inductive TaskId
  | uuid (n : ℕ)
  | buffer (dayNumber : ℕ)
deriving DecidableEq, Repr

/-- The `subjectId` field of a task: a real subject id or the literal
`system-buffer`. -/
inductive SubjectRef
  | subject (id : ℕ)
  | systemBuffer
deriving DecidableEq, Repr

inductive TaskType
  | DeepWork
  | Revision
  | Practice
  | Buffer
deriving DecidableEq, Repr

inductive TaskStatus
  | Pending
  | Completed
  | PartiallyCompleted
  | Missed
deriving DecidableEq, Repr

/-- `Subject` from src/types.ts.  The optional fields are the derived
attributes added by the pipeline stages. -/
structure Subject where
  id : ℕ
  name : String
  backlogChapters : ℚ
  deadline : Option ℤ := none
  difficulty : DifficultyLevel := DifficultyLevel.Moderate
  daysRemaining : Option ℤ := none
  urgencyScore : Option ℚ := none
  urgencyLabel : Option String := none
  urgencyColor : Option String := none
  difficultyWeight : Option ℚ := none
  pressureScore : Option ℚ := none
  pressureCategory : Option PressureCategory := none
  pressureColor : Option String := none
  priorityRank : Option ℕ := none
  priorityTier : Option PriorityTier := none
  priorityExplanation : Option String := none
  allocatedHours : Option ℚ := none
  allocationPercentage : Option ℤ := none
deriving DecidableEq, Repr

structure StudentProfile where
  availableHoursPerDay : ℚ
  learningPace : LearningPace
  stressLevel : StressLevel
deriving DecidableEq, Repr

structure RecoveryMetrics where
  totalPressure : ℚ
  weeklyCapacity : ℚ
  loadRatio : ℚ
  difficultyScore : ℤ
  recoveryCategory : PressureCategory
  message : String
  color : String
deriving DecidableEq, Repr

structure AllocationMetrics where
  totalAllocated : ℚ
  bufferTime : ℚ
  remainingTime : ℚ
  maxSubjectName : String
  isBalanced : Bool
  message : String
deriving DecidableEq, Repr

structure PlanTask where
  id : TaskId
  subjectId : SubjectRef
  subjectName : String
  type : TaskType
  durationMinutes : ℕ
  color : String
  status : TaskStatus
deriving DecidableEq, Repr

inductive Intensity
  | High
  | Moderate
  | Light
  | Recovery
deriving DecidableEq, Repr

/-- `DayPlan` from src/types.ts.  The presentational `label` and ISO
`dateString` are modelled by the integer day number `date` together
with the weekday `weekday` of that date. -/
structure DayPlan where
  dayNumber : ℕ
  date : ℤ
  weekday : ℕ
  intensity : Intensity
  tasks : List PlanTask
  totalMinutes : ℕ
  bufferMinutes : ℕ
deriving DecidableEq, Repr

structure WeeklyPlan where
  days : List DayPlan
  totalWeeklyHours : ℚ
  estimatedRecoveryDays : ℤ
  highestDay : ℕ
deriving DecidableEq, Repr

inductive StressTrend
  | Increasing
  | Stable
  | Decreasing
deriving DecidableEq, Repr

/-- `AdaptiveMetrics` from src/types.ts; the formatted
`projectedRecoveryDate` string is modelled by the number of days added
to today by the source before formatting. -/
structure AdaptiveMetrics where
  completionRate : ℚ
  stressTrend : StressTrend
  burnoutRisk : Bool
  effectiveDailyOutput : ℚ
  projectedRecoveryOffsetDays : ℤ
  loadAdjustmentFactor : ℚ
  mostChallengingSubject : String
deriving DecidableEq, Repr

structure History where
  completionRates : List ℚ
  stressLevels : List StressLevel
deriving DecidableEq, Repr

/-- `EngineResults` from src/types.ts (the `generatedAt` timestamp
string is presentational and omitted). -/
structure EngineResults where
  prioritizedSubjects : List Subject
  recoveryMetrics : RecoveryMetrics
  allocatedSubjects : List Subject
  allocationMetrics : AllocationMetrics
  weeklyPlan : WeeklyPlan
  adaptiveMetrics : AdaptiveMetrics
deriving DecidableEq, Repr

/-! ## Numeric helpers for JavaScript arithmetic -/

/-- `Math.round`: round half toward positive infinity. -/
def jsRound (x : ℚ) : ℤ := ⌊x + 1 / 2⌋

/-- `parseFloat(x.toFixed(d))`: round to `d` decimal places (ties go
up, as in `toFixed`). -/
def roundTo (d : ℕ) (x : ℚ) : ℚ := (jsRound (x * 10 ^ d) : ℚ) / 10 ^ d

/-- The ECMAScript `ToInteger` conversion (used by `Date.setDate`):
truncation toward zero. -/
def jsToInteger (x : ℚ) : ℤ := if 0 ≤ x then ⌊x⌋ else ⌈x⌉

/-! ## Stable sorting

`Array.prototype.sort` is stable (ES2019).  A stable comparison sort is
modelled by insertion sort: `keep y x = true` means the comparator
orders the earlier element `y` strictly before the later element `x`,
so `x` is inserted after every `y` the comparator keeps before it and
before the first element it does not. -/

def stableInsert (keep : α → α → Bool) (x : α) : List α → List α
  | [] => [x]
  | y :: ys => if keep y x then y :: stableInsert keep x ys else x :: y :: ys

def stableSort (keep : α → α → Bool) : List α → List α
  | [] => []
  | x :: xs => stableInsert keep x (stableSort keep xs)

/-- `s.pressureScore || 0`, the comparator default used by the engine. -/
def pscore (s : Subject) : ℚ := s.pressureScore.getD 0

/-- The sort `(a, b) => (b.pressureScore || 0) - (a.pressureScore || 0)`:
stable descending sort by pressure score. -/
def sortByScoreDesc : List Subject → List Subject :=
  stableSort (fun y x => decide (pscore x < pscore y))

/-! ## Urgency Calculator (`calculateDeadlineMetrics`, Engine.tsx 172-206) -/

/-- Days remaining until the deadline: `Math.ceil` of the difference of
the midnight-normalised dates, floored at 0; 30 when there is no
deadline. -/
def daysRemainingOf (today : ℤ) (sub : Subject) : ℤ :=
  match sub.deadline with
  | some dl => max 0 ⌈((dl - today : ℤ) : ℚ)⌉
  | none => 30

/-- The per-subject body of `calculateDeadlineMetrics`. -/
def urgencyAnnotate (today : ℤ) (sub : Subject) : Subject :=
  let daysRemaining := daysRemainingOf today sub
  let usl : ℚ × String × String :=
    if daysRemaining ≤ 3 then
      (1, "Critical", "text-red-500 border-red-500/50 bg-red-500/10")
    else if daysRemaining ≤ 7 then
      (4 / 5, "High", "text-orange-500 border-orange-500/50 bg-orange-500/10")
    else if daysRemaining ≤ 14 then
      (1 / 2, "Moderate", "text-yellow-500 border-yellow-500/50 bg-yellow-500/10")
    else
      (1 / 5, "Low", "text-emerald-500 border-emerald-500/30 bg-emerald-500/5")
  { sub with
    daysRemaining := some daysRemaining
    urgencyScore := some usl.1
    urgencyLabel := some usl.2.1
    urgencyColor := some usl.2.2 }

/-- `calculateDeadlineMetrics`.  Dates are whole day numbers (the
source normalises both `today` and the deadline to midnight before
taking `Math.ceil` of their difference in days). -/
def calculateDeadlineMetrics (today : ℤ) (rawSubjects : List Subject) : List Subject :=
  rawSubjects.map (urgencyAnnotate today)

/-! ## Pressure Scorer (`calculatePressureMetrics`, Engine.tsx 208-240) -/

def diffMap : DifficultyLevel → ℚ
  | DifficultyLevel.Low => 1
  | DifficultyLevel.Moderate => 3 / 2
  | DifficultyLevel.High => 2

def stressMap : StressLevel → ℚ
  | StressLevel.Low => 9 / 10
  | StressLevel.Moderate => 1
  | StressLevel.High => 6 / 5

def paceMap : LearningPace → ℚ
  | LearningPace.Slow => 6 / 5
  | LearningPace.Moderate => 1
  | LearningPace.Fast => 17 / 20

/-- The score assigned to one subject by `calculatePressureMetrics`. -/
def pressureScoreOf (profile : StudentProfile) (sub : Subject) : ℚ :=
  let difficultyWeight := diffMap sub.difficulty
  let backlogWeight := sub.backlogChapters * difficultyWeight
  let basePressure := backlogWeight * sub.urgencyScore.getD (1 / 5)
  max 1 (roundTo 2 (basePressure * stressMap profile.stressLevel * paceMap profile.learningPace))

/-- The scoring pass of `calculatePressureMetrics`. -/
def scoreAnnotate (profile : StudentProfile) (sub : Subject) : Subject :=
  { sub with
    difficultyWeight := some (diffMap sub.difficulty)
    pressureScore := some (pressureScoreOf profile sub) }

/-- The categorisation pass of `calculatePressureMetrics`: bucket a
subject by the percentile of its position in the descending sort of
the scores (position found by id, `findIndex` returning -1 when
absent). -/
def categoryAnnotate (sortedScores : List Subject) (sub : Subject) : Subject :=
  let rank : ℤ :=
    match sortedScores.findIdx? (fun s => decide (s.id = sub.id)) with
    | some i => (i : ℤ)
    | none => -1
  let percentile : ℚ := (Int.cast rank : ℚ) / (sortedScores.length : ℚ)
  let cc : PressureCategory × String :=
    if percentile < 1 / 4 then (PressureCategory.Critical, "from-red-500 to-rose-700")
    else if percentile < 1 / 2 then (PressureCategory.High, "from-orange-400 to-orange-600")
    else if percentile < 3 / 4 then (PressureCategory.Moderate, "from-yellow-400 to-yellow-600")
    else (PressureCategory.Low, "from-emerald-400 to-emerald-600")
  { sub with pressureCategory := some cc.1, pressureColor := some cc.2 }

def calculatePressureMetrics (timedSubjects : List Subject) (profile : StudentProfile) :
    List Subject :=
  let scoredSubjects := timedSubjects.map (scoreAnnotate profile)
  let sortedScores := sortByScoreDesc scoredSubjects
  scoredSubjects.map (categoryAnnotate sortedScores)

/-! ## Recovery Difficulty Aggregator (`calculateRecoveryDifficulty`, Engine.tsx 242-258) -/

def calculateRecoveryDifficulty (enhancedSubjects : List Subject) (profile : StudentProfile) :
    RecoveryMetrics :=
  let totalPressure := (enhancedSubjects.map pscore).sum
  let weeklyCapacity := profile.availableHoursPerDay * 7
  let loadRatio := totalPressure / weeklyCapacity
  let difficultyScore := min (jsRound (loadRatio * 50)) 100
  let cmc : PressureCategory × String × String :=
    if difficultyScore > 80 then
      (PressureCategory.Critical, "Immediate focus and aggressive prioritization required.",
        "text-red-600")
    else if difficultyScore > 60 then
      (PressureCategory.High, "Recovery requires disciplined execution.", "text-orange-500")
    else if difficultyScore > 30 then
      (PressureCategory.Moderate, "You need structured prioritization to stay on track.",
        "text-yellow-500")
    else
      (PressureCategory.Low, "Your recovery is manageable with steady effort.", "text-emerald-500")
  { totalPressure := roundTo 1 totalPressure
    weeklyCapacity := weeklyCapacity
    loadRatio := roundTo 2 loadRatio
    difficultyScore := difficultyScore
    recoveryCategory := cmc.1
    message := cmc.2.1
    color := cmc.2.2 }

/-! ## Prioritizer (`prioritizeSubjects`, Engine.tsx 260-286) -/

/-- Decoration applied to the subject at 0-based position `index` of
the sorted list (`total` is the number of subjects). -/
def priorityDecorate (total : ℕ) (index : ℕ) (sub : Subject) : Subject :=
  let rank := index + 1
  let percentile : ℚ := (index : ℚ) / (total : ℚ)
  let tier : PriorityTier :=
    if percentile < 3 / 10 then PriorityTier.CriticalPriority
    else if percentile < 3 / 5 then PriorityTier.HighPriority
    else if percentile < 17 / 20 then PriorityTier.MediumPriority
    else PriorityTier.LowPriority
  let urgencyHigh := (4 : ℚ) / 5 ≤ sub.urgencyScore.getD 0
  let backlogHigh := (8 : ℚ) ≤ sub.backlogChapters
  let explanation : String :=
    if tier = PriorityTier.CriticalPriority then
      if urgencyHigh ∧ backlogHigh then "High deadline pressure with significant backlog."
      else if urgencyHigh then "Immediate deadline demanding urgent focus."
      else "Critical combination of factors requires immediate attention."
    else if tier = PriorityTier.HighPriority then "Important subject requiring structured effort."
    else "Maintain consistent study habits."
  { sub with
    priorityRank := some rank
    priorityTier := some tier
    priorityExplanation := some explanation }

/-- The indexed map `sorted.map((sub, index) => ...)` of `prioritizeSubjects`. -/
def rankFrom (total : ℕ) : ℕ → List Subject → List Subject
  | _, [] => []
  | index, sub :: rest => priorityDecorate total index sub :: rankFrom total (index + 1) rest

def prioritizeSubjects (scoredSubjects : List Subject) : List Subject :=
  let sorted := sortByScoreDesc scoredSubjects
  rankFrom sorted.length 0 sorted

/-! ## Time Allocator (`allocateTime`, Engine.tsx 289-359) -/

def bufferRateOf (profile : StudentProfile) : ℚ :=
  if profile.stressLevel = StressLevel.High then 3 / 20 else 1 / 10

def adjustedCapacityOf (profile : StudentProfile) (loadAdjustmentFactor : ℚ) : ℚ :=
  profile.availableHoursPerDay * loadAdjustmentFactor

def bufferTimeOf (profile : StudentProfile) (loadAdjustmentFactor : ℚ) : ℚ :=
  (jsRound (adjustedCapacityOf profile loadAdjustmentFactor * bufferRateOf profile * 100) : ℤ)
    / (100 : ℚ)

def usableHoursOf (profile : StudentProfile) (loadAdjustmentFactor : ℚ) : ℚ :=
  adjustedCapacityOf profile loadAdjustmentFactor - bufferTimeOf profile loadAdjustmentFactor

def minPerSubjectOf (profile : StudentProfile) : ℚ :=
  if profile.learningPace = LearningPace.Fast then 1 / 4
  else if profile.learningPace = LearningPace.Slow then 3 / 4
  else 1 / 2

/-- `s.priorityRank || 0`, the comparator default used in `allocateTime`. -/
def prank (s : Subject) : ℕ := s.priorityRank.getD 0

/-- The sort `(a, b) => (a.priorityRank || 0) - (b.priorityRank || 0)`:
stable ascending sort by priority rank. -/
def sortByRankAsc : List Subject → List Subject :=
  stableSort (fun y x => decide (prank y < prank x))

/-- The `reduce` picking the subject with the largest allocation
(ties keep the later element, as in `prev > current ? prev : current`).
JavaScript throws on an empty array; the placeholder is never reached
because the engine only allocates validated non-empty subject lists. -/
def maxByAllocated : List Subject → Subject
  | [] => { id := 0, name := "", backlogChapters := 0 }
  | s :: rest =>
      rest.foldl
        (fun prev current =>
          if current.allocatedHours.getD 0 < prev.allocatedHours.getD 0 then prev else current)
        s

def allocateTime (subjects : List Subject) (profile : StudentProfile)
    (loadAdjustmentFactor : ℚ) : List Subject × AllocationMetrics :=
  let adjustedCapacity := adjustedCapacityOf profile loadAdjustmentFactor
  let bufferTime := bufferTimeOf profile loadAdjustmentFactor
  let usableHours := usableHoursOf profile loadAdjustmentFactor
  let minPerSubject := minPerSubjectOf profile
  let maxPerSubject := adjustedCapacity * (1 / 2)
  let totalPressure := (subjects.map pscore).sum
  let allocations := subjects.map fun s => (s, pscore s / totalPressure * usableHours)
  let allocations := allocations.map fun sh =>
    let h := sh.2
    let h := if h < minPerSubject then minPerSubject else h
    let h := if maxPerSubject < h then maxPerSubject else h
    (sh.1, h)
  let currentTotal := (allocations.map Prod.snd).sum
  let allocations :=
    if usableHours < currentTotal then
      allocations.map fun sh => (sh.1, sh.2 * (usableHours / currentTotal))
    else allocations
  let finalAllocations := allocations.map fun sh =>
    let rounded : ℚ := (jsRound (sh.2 * 4) : ℤ) / (4 : ℚ)
    let rounded := if rounded < 1 / 4 ∧ 0 < sh.2 then 1 / 4 else rounded
    { sh.1 with allocatedHours := some rounded }
  let finalAllocations := sortByRankAsc finalAllocations
  let finalSum := (finalAllocations.map (fun s => s.allocatedHours.getD 0)).sum
  let remainingTime := max 0 (adjustedCapacity - finalSum - bufferTime)
  let resultSubjects := finalAllocations.map fun s =>
    { s with
      allocationPercentage :=
        some (jsRound (s.allocatedHours.getD 0 / profile.availableHoursPerDay * 100)) }
  let maxSubject := maxByAllocated resultSubjects
  let message := "Schedule optimized for efficiency."
  let message := if loadAdjustmentFactor < 1 then
      "Workload reduced to prevent burnout (Adaptive Mode)." else message
  let message := if profile.stressLevel = StressLevel.High then
      "Workload adjusted for high stress levels." else message
  (resultSubjects,
    { totalAllocated := roundTo 2 finalSum
      bufferTime := roundTo 2 bufferTime
      remainingTime := roundTo 2 remainingTime
      maxSubjectName := maxSubject.name
      isBalanced := decide (maxSubject.allocatedHours.getD 0 ≤ profile.availableHoursPerDay * (2 / 5))
      message := message })

/-! ## Weekly Plan Generator (`generateWeeklyPlan`, Engine.tsx 361-512) -/

/-- `getDayProfile`: intensity and capacity multiplier of a weekday
(0 = Sunday, ..., 6 = Saturday). -/
def getDayProfile (w : ℕ) : Intensity × ℚ :=
  if w = 0 then (Intensity.Recovery, 1 / 2)
  else if w = 6 then (Intensity.Light, 7 / 10)
  else if w = 3 ∨ w = 4 then (Intensity.High, 11 / 10)
  else (Intensity.Moderate, 1)

/-- Weekday of the i-th plan day; the plan starts tomorrow. -/
def planWeekday (todayWD : ℕ) (i : ℕ) : ℕ := (todayWD + 1 + i) % 7

/-- Effective capacity of a day in minutes:
`profile.availableHoursPerDay * 60 * dailyMultipliers[dayIndex]`. -/
def dayCap (hours : ℚ) (w : ℕ) : ℚ := hours * 60 * (getDayProfile w).2

/-- The 7 empty day shells generated first (`todayNum` is the day
number of today, `todayWD` its weekday). -/
def initDays (todayWD : ℕ) (todayNum : ℤ) : List DayPlan :=
  (List.range 7).map fun i =>
    { dayNumber := i + 1
      date := todayNum + 1 + i
      weekday := planWeekday todayWD i
      intensity := (getDayProfile (planWeekday todayWD i)).1
      tasks := []
      totalMinutes := 0
      bufferMinutes := 0 }

def getFrequency (stress : StressLevel) (tier : Option PriorityTier) : ℕ :=
  let freq : ℕ :=
    match tier with
    | some PriorityTier.CriticalPriority => 6
    | some PriorityTier.HighPriority => 5
    | some PriorityTier.MediumPriority => 4
    | _ => 3
  if stress = StressLevel.High ∧ 3 < freq then freq - 1 else freq

def getTargetDays (freq : ℕ) : List ℕ :=
  if 7 ≤ freq then [0, 1, 2, 3, 4, 5, 6]
  else if freq = 6 then [0, 1, 2, 3, 4, 5]
  else if freq = 5 then [0, 1, 2, 3, 4]
  else if freq = 4 then [0, 1, 2, 3]
  else if freq = 3 then [0, 2, 4]
  else if freq = 2 then [1, 3]
  else [0]

/-- Whether the session date falls after the subject deadline
(deadline set to end of day, so strictly later day numbers are
skipped; a missing deadline never skips, as comparison with an invalid
date is false). -/
def deadlineSkip (sub : Subject) (date : ℤ) : Bool :=
  match sub.deadline with
  | some dl => decide (dl < date)
  | none => false

/-- The task block or split pair pushed for one session; returns the
new fresh-id counter. -/
def mkSessionTasks (sub : Subject) (ctr : ℕ) (actual : ℕ) : List PlanTask × ℕ :=
  let color := sub.urgencyColor.getD "text-gray-500"
  if 90 < actual then
    let deepWork := actual * 3 / 5
    ([{ id := TaskId.uuid ctr, subjectId := SubjectRef.subject sub.id, subjectName := sub.name,
        type := TaskType.DeepWork, durationMinutes := deepWork, color := color,
        status := TaskStatus.Pending },
      { id := TaskId.uuid (ctr + 1), subjectId := SubjectRef.subject sub.id,
        subjectName := sub.name, type := TaskType.Revision,
        durationMinutes := actual - deepWork, color := color, status := TaskStatus.Pending }],
      ctr + 2)
  else
    ([{ id := TaskId.uuid ctr, subjectId := SubjectRef.subject sub.id, subjectName := sub.name,
        type := if actual < 40 then TaskType.Practice else TaskType.DeepWork,
        durationMinutes := actual, color := color, status := TaskStatus.Pending }], ctr + 1)

/-- Place one session of `sub` (of nominal length `mps` minutes) on day
index `i`, enforcing the deadline and the strict capacity check. -/
def placeSession (profile : StudentProfile) (sub : Subject) (mps : ℕ)
    (st : List DayPlan × ℕ) (i : ℕ) : List DayPlan × ℕ :=
  match st.1.get? i with
  | none => st
  | some day =>
    if deadlineSkip sub day.date then st
    else
      let cap := dayCap profile.availableHoursPerDay day.weekday
      let remaining : ℚ := cap - (day.totalMinutes : ℚ)
      if remaining < 15 then st
      else
        let actual : ℕ := if remaining < (mps : ℚ) then (⌊remaining⌋).toNat else mps
        if actual < 15 then st
        else
          let tc := mkSessionTasks sub st.2 actual
          (st.1.set i
            { day with
              tasks := day.tasks ++ tc.1
              totalMinutes := day.totalMinutes + actual }, tc.2)

/-- Place all sessions of one subject. -/
def placeSubject (profile : StudentProfile) (st : List DayPlan × ℕ) (sub : Subject) :
    List DayPlan × ℕ :=
  if sub.allocatedHours.getD 0 ≤ 0 then st
  else
    let freq := getFrequency profile.stressLevel sub.priorityTier
    let totalWeeklyMinutes := sub.allocatedHours.getD 0 * 7 * 60
    let mps := (⌊totalWeeklyMinutes / (freq : ℚ)⌋).toNat
    (getTargetDays freq).foldl (placeSession profile sub mps) st

/-- The sort `(a, b) => (a.priorityRank || 99) - (b.priorityRank || 99)`
used to give high-priority subjects the slots first. -/
def sortByRank99Asc : List Subject → List Subject :=
  stableSort (fun y x => decide (y.priorityRank.getD 99 < x.priorityRank.getD 99))

/-- Trailing catch-up buffer added to a day when leftover capacity
exceeds 20 minutes. -/
def bufferize (hours : ℚ) (d : DayPlan) : DayPlan :=
  let cap := dayCap hours d.weekday
  let bufferMins := (⌊max 0 (cap - (d.totalMinutes : ℚ))⌋).toNat
  if 20 < bufferMins then
    { d with
      tasks := d.tasks ++
        [{ id := TaskId.buffer d.dayNumber, subjectId := SubjectRef.systemBuffer,
           subjectName := "Catch-up Time", type := TaskType.Buffer,
           durationMinutes := bufferMins, color := "text-gray-500",
           status := TaskStatus.Pending }]
      totalMinutes := d.totalMinutes + bufferMins
      bufferMinutes := bufferMins }
  else d

/-- `generateWeeklyPlan`.  (When the scheduled weekly hours are zero
the source forecast is the JavaScript `Infinity`; here division by
zero yields the junk value 0 — no claim concerns that field.) -/
def generateWeeklyPlan (subjects : List Subject) (profile : StudentProfile)
    (todayWD : ℕ) (todayNum : ℤ) (nextId : ℕ) : WeeklyPlan :=
  let sortedSubjects := sortByRank99Asc subjects
  let placed := sortedSubjects.foldl (placeSubject profile) (initDays todayWD todayNum, nextId)
  let weeklyPlan := placed.1.map (bufferize profile.availableHoursPerDay)
  let totalBacklog := (subjects.map (fun s => s.backlogChapters)).sum
  let weeklyHours : ℚ := ((weeklyPlan.map (fun d => d.totalMinutes)).sum : ℕ) / (60 : ℚ)
  let estimatedVelocity := weeklyHours * (3 / 5)
  let estimatedRecoveryDays : ℤ := ⌈totalBacklog / estimatedVelocity * 7⌉
  let highestDay := (weeklyPlan.map (fun d => d.totalMinutes)).foldl max 0
  { days := weeklyPlan
    totalWeeklyHours := roundTo 1 weeklyHours
    estimatedRecoveryDays := estimatedRecoveryDays
    highestDay := highestDay }

/-! ## Adaptive Controller (`calculateAdaptiveMetrics`, Engine.tsx 516-572) -/

def stressScore : StressLevel → ℕ
  | StressLevel.Low => 1
  | StressLevel.Moderate => 2
  | StressLevel.High => 3

/-- `calculateAdaptiveMetrics`.  The in-place
`subjects.sort((a, b) => ...)` of the source is modelled by
`sortByScoreDesc`; the caller records the same reordering (see
`toggleTaskStatus` and `rebalanceSchedule`). -/
def calculateAdaptiveMetrics (weeklyPlan : WeeklyPlan) (subjects : List Subject)
    (profile : StudentProfile) (hist : History) : AdaptiveMetrics :=
  let allTasks := ((weeklyPlan.days.map (fun d => d.tasks)).flatten).filter
    (fun t => decide (t.type ≠ TaskType.Buffer))
  let completedTasks := allTasks.filter (fun t => decide (t.status = TaskStatus.Completed))
  let completionRate : ℚ :=
    if 0 < allTasks.length then
      (completedTasks.length : ℚ) / (allTasks.length : ℚ) * 100
    else 0
  let currentStress := stressScore profile.stressLevel
  let prevStress :=
    match hist.stressLevels.getLast? with
    | some s => stressScore s
    | none => currentStress
  let stressTrend :=
    if prevStress < currentStress then StressTrend.Increasing
    else if currentStress < prevStress then StressTrend.Decreasing
    else StressTrend.Stable
  let difficultyMetric :=
    calculateRecoveryDifficulty (calculatePressureMetrics subjects profile) profile
  let burnoutRisk :=
    decide (profile.stressLevel = StressLevel.High ∧ completionRate < 50 ∧
      70 < difficultyMetric.difficultyScore)
  let completedHours : ℚ :=
    ((completedTasks.map (fun t => t.durationMinutes)).sum : ℕ) / (60 : ℚ)
  let effectiveDailyOutput := if 0 < completedHours then completedHours / 1 else 1 / 2
  let totalBacklog := (subjects.map (fun s => s.backlogChapters)).sum
  let chaptersCleared := completedHours / (3 / 2)
  let remainingBacklog := max 0 (totalBacklog - chaptersCleared)
  let capacityFactor := profile.availableHoursPerDay *
    (if 0 < completionRate then completionRate / 100 else 4 / 5)
  let offset := remainingBacklog * (3 / 2) / (if capacityFactor = 0 then 1 else capacityFactor)
  let laf : ℚ := 1
  let laf := if 90 < completionRate then 21 / 20 else laf
  let laf := if completionRate < 60 then 9 / 10 else laf
  let laf := if burnoutRisk then 17 / 20 else laf
  let mostChallengingSubject :=
    match (sortByScoreDesc subjects).head? with
    | some s => if s.name = "" then "None" else s.name
    | none => "None"
  { completionRate := roundTo 1 completionRate
    stressTrend := stressTrend
    burnoutRisk := burnoutRisk
    effectiveDailyOutput := roundTo 2 effectiveDailyOutput
    projectedRecoveryOffsetDays := jsToInteger offset
    loadAdjustmentFactor := laf
    mostChallengingSubject := mostChallengingSubject }

/-! ## Task status toggling (`toggleTaskStatus`, Engine.tsx 619-649) -/

/-- The cyclic toggle:
Pending -> Completed -> Missed -> Partially Completed -> Pending. -/
def nextStatus : TaskStatus → TaskStatus
  | TaskStatus.Pending => TaskStatus.Completed
  | TaskStatus.Completed => TaskStatus.Missed
  | TaskStatus.Missed => TaskStatus.PartiallyCompleted
  | TaskStatus.PartiallyCompleted => TaskStatus.Pending

/-- Apply `f` to the first element satisfying `p` (the in-place
mutation of the element located with `Array.prototype.find`). -/
def updateFirst (p : α → Bool) (f : α → α) : List α → List α
  | [] => []
  | x :: xs => if p x then f x :: xs else x :: updateFirst p f xs

def toggleTask (t : PlanTask) : PlanTask := { t with status := nextStatus t.status }

def toggleDay (taskId : TaskId) (d : DayPlan) : DayPlan :=
  { d with tasks := updateFirst (fun t => decide (t.id = taskId)) toggleTask d.tasks }

/-- The plan part of `toggleTaskStatus`: find the first day whose
`dayNumber` matches and toggle the first task whose id matches. -/
def togglePlan (plan : WeeklyPlan) (dayIndex : ℕ) (taskId : TaskId) : WeeklyPlan :=
  { plan with
    days := updateFirst (fun d => decide (d.dayNumber = dayIndex)) (toggleDay taskId) plan.days }

/-- `toggleTaskStatus` on the engine results.  When the day or the task
is not found nothing happens (no metric recomputation either).  The
in-place sort inside `calculateAdaptiveMetrics` reorders
`prioritizedSubjects`, which the spread then retains. -/
def toggleTaskStatus (profile : StudentProfile) (hist : History) (R : EngineResults)
    (dayIndex : ℕ) (taskId : TaskId) : EngineResults :=
  match R.weeklyPlan.days.find? (fun d => decide (d.dayNumber = dayIndex)) with
  | none => R
  | some day =>
    match day.tasks.find? (fun t => decide (t.id = taskId)) with
    | none => R
    | some _ =>
      let newPlan := togglePlan R.weeklyPlan dayIndex taskId
      { R with
        weeklyPlan := newPlan
        prioritizedSubjects := sortByScoreDesc R.prioritizedSubjects
        adaptiveMetrics :=
          calculateAdaptiveMetrics newPlan R.prioritizedSubjects profile hist }

/-! ## Rebalancing (`rebalanceSchedule`, Engine.tsx 651-689) -/

/-- Collect every Missed task, day-major (the nested `forEach`). -/
def collectMissed (days : List DayPlan) : List PlanTask :=
  ((days.map (fun d => d.tasks)).flatten).filter (fun t => decide (t.status = TaskStatus.Missed))

/-- Reset each collected task to a fresh Pending clone with a new id
(`{ ...task, status: Pending, id: crypto.randomUUID() }`); the k-th
clone gets the fresh id `nextId + k`. -/
def freshen : ℕ → List PlanTask → List PlanTask
  | _, [] => []
  | n, t :: ts =>
      { t with status := TaskStatus.Pending, id := TaskId.uuid n } :: freshen (n + 1) ts

/-- Decoration applied on insertion:
`{ ...task, subjectName: "(Rescheduled) ...", color: "text-orange-400" }`. -/
def resched (t : PlanTask) : PlanTask :=
  { t with subjectName := "(Rescheduled) " ++ t.subjectName, color := "text-orange-400" }

/-- Apply `f` to the element at index `i` (out-of-range is a no-op). -/
def modifyIdx (f : α → α) : ℕ → List α → List α
  | _, [] => []
  | 0, x :: xs => f x :: xs
  | n + 1, x :: xs => x :: modifyIdx f n xs

/-- Splice the decorated clone to the front of a day and bump the
total-minutes tally without any capacity check. -/
def insertClone (t : PlanTask) (d : DayPlan) : DayPlan :=
  { d with tasks := resched t :: d.tasks, totalMinutes := d.totalMinutes + t.durationMinutes }

/-- Round-robin placement of the clones: the k-th clone goes to day
index `(k % 6) + 1` (day 0 is avoided). -/
def placeClones : ℕ → List PlanTask → List DayPlan → List DayPlan
  | _, [], days => days
  | dayIdx, t :: ts, days =>
      placeClones (dayIdx + 1) ts (modifyIdx (insertClone t) (dayIdx % 6 + 1) days)

/-- The day-level rebalance: collect Missed tasks, clone them fresh and
redistribute round-robin.  The originals are left in place. -/
def rebalanceDays (nextId : ℕ) (days : List DayPlan) : List DayPlan :=
  placeClones 0 (freshen nextId (collectMissed days)) days

/-- `rebalanceSchedule` on the engine results: rebalance the days,
recompute the adaptive metrics and force the load-adjustment factor to
0.95. -/
def rebalanceSchedule (profile : StudentProfile) (hist : History) (nextId : ℕ)
    (R : EngineResults) : EngineResults :=
  let newPlan := { R.weeklyPlan with days := rebalanceDays nextId R.weeklyPlan.days }
  let newAdaptive := calculateAdaptiveMetrics newPlan R.prioritizedSubjects profile hist
  { R with
    weeklyPlan := newPlan
    prioritizedSubjects := sortByScoreDesc R.prioritizedSubjects
    adaptiveMetrics := { newAdaptive with loadAdjustmentFactor := 19 / 20 } }

/-! ## Profile updates (`updateStudentProfile`, Engine.tsx 713-717) -/

/-- The `availableHoursPerDay` branch of `updateStudentProfile`: an
out-of-range value is rejected outright (early `return`), otherwise the
field is stored as given. -/
def updateStudentProfile (p : StudentProfile) (value : ℚ) : StudentProfile :=
  if value < 1 ∨ 24 < value then p
  else { p with availableHoursPerDay := value }

/-! ## Specification-side definitions

These two definitions are written from the words of the specification
(not from the source); they exist to be compared against the source
functions above. -/

/-- Position-tagging of a list: element positions record the original
insertion order. -/
def withPositions : ℕ → List α → List (ℕ × α)
  | _, [] => []
  | n, x :: xs => (n, x) :: withPositions (n + 1) xs

/-- The spec ordering for prioritisation: pressure score descending,
ties broken by original insertion order (position ascending). -/
def specKeepDesc (y x : ℕ × Subject) : Bool :=
  decide (pscore x.2 < pscore y.2 ∨ (pscore y.2 = pscore x.2 ∧ y.1 < x.1))

/-- Modelled from the spec: a stable descending sort of the subjects by
pressure score with ties broken by insertion order, realised as the
sort of the position-tagged subjects by the total lexicographic order
`specKeepDesc`. -/
def specStableSortDesc (l : List Subject) : List Subject :=
  (stableSort specKeepDesc (withPositions 0 l)).map Prod.snd

/-- Modelled from the spec: clamping a daily-hours value to [1, 24]. -/
def specClamp (v : ℚ) : ℚ := max 1 (min 24 v)

/-- Erase the fields written by the prioritizer, to compare subject
lists up to prioritisation decoration. -/
def stripPriority (s : Subject) : Subject :=
  { s with priorityRank := none, priorityTier := none, priorityExplanation := none }

/-! ## Concrete inputs used by scenario theorems, counterexamples and witnesses -/

def c5List : List Subject :=
  [{ id := 1, name := "X", backlogChapters := 1, pressureScore := some 5 },
   { id := 2, name := "Y", backlogChapters := 1, pressureScore := some 7 },
   { id := 3, name := "Z", backlogChapters := 1, pressureScore := some 5 }]

def c7Subject : Subject := { id := 7, name := "Chem", backlogChapters := 3 }

def c9Profile : StudentProfile :=
  { availableHoursPerDay := 4, learningPace := LearningPace.Moderate,
    stressLevel := StressLevel.Moderate }

def scenarioASubject : Subject :=
  { id := 1, name := "Physics", backlogChapters := 10, deadline := some 2,
    difficulty := DifficultyLevel.High }

def scenarioAProfile : StudentProfile :=
  { availableHoursPerDay := 4, learningPace := LearningPace.Fast,
    stressLevel := StressLevel.High }

def scenarioAAnnotated : Subject :=
  { id := 1, name := "Physics", backlogChapters := 10, deadline := some 2,
    difficulty := DifficultyLevel.High, daysRemaining := some 2, urgencyScore := some 1,
    urgencyLabel := some "Critical",
    urgencyColor := some "text-red-500 border-red-500/50 bg-red-500/10" }

def scenarioBProfile : StudentProfile :=
  { availableHoursPerDay := 4, learningPace := LearningPace.Moderate,
    stressLevel := StressLevel.Moderate }

def scenarioBSubjectA : Subject :=
  { id := 1, name := "A", backlogChapters := 5, pressureScore := some 10,
    priorityRank := some 2 }

def scenarioBSubjectB : Subject :=
  { id := 2, name := "B", backlogChapters := 5, pressureScore := some 30,
    priorityRank := some 1 }

def scenarioBResult : List Subject × AllocationMetrics :=
  allocateTime [scenarioBSubjectA, scenarioBSubjectB] scenarioBProfile 1

def scenarioBOutB : Subject :=
  { id := 2, name := "B", backlogChapters := 5, pressureScore := some 30,
    priorityRank := some 1, allocatedHours := some 2, allocationPercentage := some 50 }

def scenarioBOutA : Subject :=
  { id := 1, name := "A", backlogChapters := 5, pressureScore := some 10,
    priorityRank := some 2, allocatedHours := some 1, allocationPercentage := some 25 }

def ceProfile : StudentProfile :=
  { availableHoursPerDay := 4, learningPace := LearningPace.Moderate,
    stressLevel := StressLevel.Moderate }

def ceHist : History := { completionRates := [], stressLevels := [] }

def ceTask : PlanTask :=
  { id := TaskId.uuid 5, subjectId := SubjectRef.subject 1, subjectName := "Math",
    type := TaskType.DeepWork, durationMinutes := 60, color := "text-red-500",
    status := TaskStatus.Missed }

def ceDay (n : ℕ) (ts : List PlanTask) : DayPlan :=
  { dayNumber := n + 1, date := n, weekday := n % 7, intensity := Intensity.Moderate,
    tasks := ts, totalMinutes := 60, bufferMinutes := 0 }

/-- A 7-day plan whose only Missed task sits in the day of index 3. -/
def ceDays : List DayPlan :=
  [ceDay 0 [], ceDay 1 [], ceDay 2 [], ceDay 3 [ceTask], ceDay 4 [], ceDay 5 [], ceDay 6 []]

def ceWeeklyPlan : WeeklyPlan :=
  { days := ceDays, totalWeeklyHours := 1, estimatedRecoveryDays := 1, highestDay := 60 }

def ceRecoveryMetrics : RecoveryMetrics :=
  { totalPressure := 0, weeklyCapacity := 28, loadRatio := 0, difficultyScore := 0,
    recoveryCategory := PressureCategory.Low, message := "", color := "" }

def ceAllocationMetrics : AllocationMetrics :=
  { totalAllocated := 0, bufferTime := 0, remainingTime := 0, maxSubjectName := "",
    isBalanced := true, message := "" }

def ceAdaptive : AdaptiveMetrics :=
  { completionRate := 0, stressTrend := StressTrend.Stable, burnoutRisk := false,
    effectiveDailyOutput := 0, projectedRecoveryOffsetDays := 0, loadAdjustmentFactor := 1,
    mostChallengingSubject := "" }

def ceResults : EngineResults :=
  { prioritizedSubjects := [], recoveryMetrics := ceRecoveryMetrics, allocatedSubjects := [],
    allocationMetrics := ceAllocationMetrics, weeklyPlan := ceWeeklyPlan,
    adaptiveMetrics := ceAdaptive }

/-! ## Derived notions used in the statements about rebalancing and capacity -/

/-- Minutes the round-robin placement adds to the day of index `j`
when the clones `ts` are distributed starting from placement counter
`k`: the m-th clone goes to day index `(k + m) % 6 + 1`. -/
def assignedMinutes (j : ℕ) : ℕ → List PlanTask → ℕ
  | _, [] => 0
  | k, t :: ts => (if k % 6 + 1 = j then t.durationMinutes else 0) + assignedMinutes j (k + 1) ts

/-- The clone the rebalance inserts for the k-th collected Missed task:
fresh id, status Pending, "(Rescheduled) " name prefix, orange colour. -/
def rescheduledClone (nextId k : ℕ) (t : PlanTask) : PlanTask :=
  resched { t with status := TaskStatus.Pending, id := TaskId.uuid (nextId + k) }

/-- Every uuid carried by the task is below `n` (so ids from the fresh
counter `n` onward are new). -/
def uuidBelow (n : ℕ) (t : PlanTask) : Bool :=
  match t.id with
  | TaskId.uuid m => decide (m < n)
  | TaskId.buffer _ => true

/-- The C3 property of `rebalanceSchedule`, stated over the engine
results `R`: the rebalanced days are `rebalanceDays`, day 0 is never
touched, the k-th collected Missed task gets a fresh Pending
"(Rescheduled)" clone in the day of index `(k % 6) + 1` (between 1 and
6), every original task — in particular every Missed one — stays in its
day, each day total-minutes tally grows by exactly the minutes of the
clones assigned to it (no capacity check), and the load-adjustment
factor is forced to 0.95. -/
def rebalanceSpec (profile : StudentProfile) (hist : History) (nextId : ℕ)
    (R : EngineResults) : Prop :=
  let days := R.weeklyPlan.days
  let missed := collectMissed days
  let days2 := (rebalanceSchedule profile hist nextId R).weeklyPlan.days
  days2 = rebalanceDays nextId days ∧
  days2.length = days.length ∧
  days2.get? 0 = days.get? 0 ∧
  (∀ k t, missed.get? k = some t →
    (1 ≤ k % 6 + 1 ∧ k % 6 + 1 ≤ 6) ∧
    ∃ e, days2.get? (k % 6 + 1) = some e ∧ rescheduledClone nextId k t ∈ e.tasks) ∧
  (∀ k t, missed.get? k = some t →
    (rescheduledClone nextId k t).status = TaskStatus.Pending ∧
    (rescheduledClone nextId k t).subjectName = "(Rescheduled) " ++ t.subjectName ∧
    (rescheduledClone nextId k t).id = TaskId.uuid (nextId + k) ∧
    (rescheduledClone nextId k t).durationMinutes = t.durationMinutes ∧
    ∀ j d, days.get? j = some d → ∀ u ∈ d.tasks, u.id ≠ TaskId.uuid (nextId + k)) ∧
  (∀ j d, days.get? j = some d → ∃ e, days2.get? j = some e ∧
    e.dayNumber = d.dayNumber ∧ e.date = d.date ∧ e.weekday = d.weekday ∧
    e.intensity = d.intensity ∧ e.bufferMinutes = d.bufferMinutes ∧
    e.totalMinutes = d.totalMinutes + assignedMinutes j 0 missed ∧
    ∀ t ∈ d.tasks, t ∈ e.tasks) ∧
  (rebalanceSchedule profile hist nextId R).adaptiveMetrics.loadAdjustmentFactor = 19 / 20

/-- The body of `toggleFrameSpec` with the toggled results `R2` made
explicit. -/
def toggleFrameSpecOn (R2 R : EngineResults) (dayIndex : ℕ) (taskId : TaskId) : Prop :=
  R2.weeklyPlan.days.length = R.weeklyPlan.days.length ∧
  R2.weeklyPlan.totalWeeklyHours = R.weeklyPlan.totalWeeklyHours ∧
  R2.weeklyPlan.estimatedRecoveryDays = R.weeklyPlan.estimatedRecoveryDays ∧
  R2.weeklyPlan.highestDay = R.weeklyPlan.highestDay ∧
  R2.recoveryMetrics = R.recoveryMetrics ∧
  R2.allocatedSubjects = R.allocatedSubjects ∧
  R2.allocationMetrics = R.allocationMetrics ∧
  (R.prioritizedSubjects.Pairwise (fun a b => pscore b ≤ pscore a) →
    R2.prioritizedSubjects = R.prioritizedSubjects) ∧
  ∀ j d, R.weeklyPlan.days.get? j = some d → ∃ e, R2.weeklyPlan.days.get? j = some e ∧
    e.dayNumber = d.dayNumber ∧ e.date = d.date ∧ e.weekday = d.weekday ∧
    e.intensity = d.intensity ∧ e.totalMinutes = d.totalMinutes ∧
    e.bufferMinutes = d.bufferMinutes ∧ e.tasks.length = d.tasks.length ∧
    ∀ k t, d.tasks.get? k = some t → ∃ u, e.tasks.get? k = some u ∧
      u.id = t.id ∧ u.subjectId = t.subjectId ∧ u.subjectName = t.subjectName ∧
      u.type = t.type ∧ u.durationMinutes = t.durationMinutes ∧ u.color = t.color ∧
      (u.status = t.status ∨
        (u.status = nextStatus t.status ∧ t.id = taskId ∧ d.dayNumber = dayIndex ∧
          (∀ m v, m < k → d.tasks.get? m = some v → v.id ≠ taskId) ∧
          (∀ m e2, m < j → R.weeklyPlan.days.get? m = some e2 → e2.dayNumber ≠ dayIndex)))

/-- The C10 frame property of `toggleTaskStatus`: the day list keeps
its length, every plan scalar and every other result field survives,
the subject list survives whenever it is sorted (it always is for
engine-produced results: the in-place sort inside the metric
recomputation is then the identity), and day by day, task by task,
everything is unchanged except that the status of the first task with
the given id inside the first day with the given number may advance by
one toggle step. -/
def toggleFrameSpec (profile : StudentProfile) (hist : History) (R : EngineResults)
    (dayIndex : ℕ) (taskId : TaskId) : Prop :=
  toggleFrameSpecOn (toggleTaskStatus profile hist R dayIndex taskId) R dayIndex taskId

/-- Minutes of the non-buffer tasks of a day. -/
def nonBufferMinutes (d : DayPlan) : ℕ :=
  ((d.tasks.filter (fun t => decide (t.type ≠ TaskType.Buffer))).map
    (fun t => t.durationMinutes)).sum

/-- The invariant maintained while `generateWeeklyPlan` fills the
days: the tracked total is exactly the non-buffer minutes and respects
the effective capacity of the day stored weekday. -/
def GoodDay (hours : ℚ) (d : DayPlan) : Prop :=
  nonBufferMinutes d = d.totalMinutes ∧ (d.totalMinutes : ℚ) ≤ dayCap hours d.weekday

/-! ## Generic list lemmas -/

theorem length_updateFirst (p : α → Bool) (f : α → α) :
    ∀ l : List α, (updateFirst p f l).length = l.length := by
  intro l
  induction l with
  | nil => rfl
  | cons x xs ih =>
      by_cases h : p x <;> simp [updateFirst, h, ih]

theorem get?_updateFirst (p : α → Bool) (f : α → α) :
    ∀ (l : List α) (n : ℕ) (t : α), l.get? n = some t →
      (updateFirst p f l).get? n = some t ∨
        ((updateFirst p f l).get? n = some (f t) ∧ p t = true ∧
          ∀ m u, m < n → l.get? m = some u → p u = false) := by
  intro l
  induction l with
  | nil => intro n t h; simp at h
  | cons x xs ih =>
      intro n t h
      by_cases hp : p x
      · cases n with
        | zero =>
            rw [List.get?_cons_zero, Option.some.injEq] at h
            subst h
            right
            refine ⟨?_, hp, ?_⟩
            · simp [updateFirst, hp]
            · intro m u hm; omega
        | succ n2 =>
            rw [List.get?_cons_succ] at h
            left
            rw [show updateFirst p f (x :: xs) = f x :: xs by simp [updateFirst, hp]]
            rw [List.get?_cons_succ]
            exact h
      · cases n with
        | zero =>
            rw [List.get?_cons_zero, Option.some.injEq] at h
            subst h
            left
            simp [updateFirst, hp]
        | succ n2 =>
            rw [List.get?_cons_succ] at h
            rcases ih n2 t h with h1 | ⟨h1, h2, h3⟩
            · left
              rw [show updateFirst p f (x :: xs) = x :: updateFirst p f xs by
                simp [updateFirst, hp]]
              rw [List.get?_cons_succ]
              exact h1
            · right
              refine ⟨?_, h2, ?_⟩
              · rw [show updateFirst p f (x :: xs) = x :: updateFirst p f xs by
                  simp [updateFirst, hp]]
                rw [List.get?_cons_succ]
                exact h1
              · intro m u hm hu
                cases m with
                | zero =>
                    rw [List.get?_cons_zero, Option.some.injEq] at hu
                    subst hu
                    simpa using hp
                | succ m2 =>
                    rw [List.get?_cons_succ] at hu
                    exact h3 m2 u (by omega) hu

theorem updateFirst_updateFirst (p : α → Bool) (f g : α → α)
    (hg : ∀ a, p (g a) = p a) :
    ∀ l : List α, updateFirst p f (updateFirst p g l) =
      updateFirst p (fun a => f (g a)) l := by
  intro l
  induction l with
  | nil => rfl
  | cons x xs ih =>
      by_cases h : p x
      · simp [updateFirst, h, hg]
      · simp [updateFirst, h, ih]

theorem updateFirst_congr (p : α → Bool) (f g : α → α) (h : ∀ a, f a = g a) :
    ∀ l : List α, updateFirst p f l = updateFirst p g l := by
  intro l
  induction l with
  | nil => rfl
  | cons x xs ih =>
      by_cases hp : p x <;> simp [updateFirst, hp, ih, h]

theorem updateFirst_id (p : α → Bool) :
    ∀ l : List α, updateFirst p (fun a => a) l = l := by
  intro l
  induction l with
  | nil => rfl
  | cons x xs ih =>
      by_cases hp : p x <;> simp [updateFirst, hp, ih]

theorem length_modifyIdx (f : α → α) :
    ∀ (i : ℕ) (l : List α), (modifyIdx f i l).length = l.length := by
  intro i l
  induction l generalizing i with
  | nil => cases i <;> rfl
  | cons x xs ih =>
      cases i with
      | zero => rfl
      | succ i2 => simp [modifyIdx, ih]

theorem get?_modifyIdx (f : α → α) :
    ∀ (i j : ℕ) (l : List α),
      (modifyIdx f i l).get? j = if i = j then (l.get? j).map f else l.get? j := by
  intro i j l
  induction l generalizing i j with
  | nil => simp [modifyIdx]
  | cons x xs ih =>
      cases i with
      | zero =>
          cases j with
          | zero => simp [modifyIdx]
          | succ j' => simp [modifyIdx]
      | succ i' =>
          cases j with
          | zero => simp [modifyIdx]
          | succ j' =>
              simp only [modifyIdx, List.get?]
              rw [ih i' j']
              by_cases h : i' = j'
              · simp [h]
              · simp [h, fun hh => h (Nat.succ_injective hh)]

/-! ## Stable sort lemmas -/

theorem stableInsert_perm (keep : α → α → Bool) (x : α) :
    ∀ l : List α, (stableInsert keep x l).Perm (x :: l) := by
  intro l
  induction l with
  | nil => simp [stableInsert]
  | cons y ys ih =>
      by_cases h : keep y x
      · simp only [stableInsert, h, if_pos]
        exact (ih.cons y).trans (List.Perm.swap x y ys)
      · simp [stableInsert, h]

theorem stableSort_perm (keep : α → α → Bool) :
    ∀ l : List α, (stableSort keep l).Perm l := by
  intro l
  induction l with
  | nil => simp [stableSort]
  | cons x xs ih =>
      exact (stableInsert_perm keep x (stableSort keep xs)).trans (ih.cons x)

theorem mem_stableSort (keep : α → α → Bool) (l : List α) (a : α) :
    a ∈ stableSort keep l ↔ a ∈ l :=
  (stableSort_perm keep l).mem_iff

theorem length_stableSort (keep : α → α → Bool) (l : List α) :
    (stableSort keep l).length = l.length :=
  (stableSort_perm keep l).length_eq

theorem pairwise_stableInsert {R : α → α → Prop} (keep : α → α → Bool)
    (hkeep : ∀ a b, keep a b = true → R a b) (hnot : ∀ a b, keep a b = false → R b a)
    (htrans : ∀ a b c, R a b → R b c → R a c) (x : α) :
    ∀ l : List α, l.Pairwise R → (stableInsert keep x l).Pairwise R := by
  intro l
  induction l with
  | nil => intro _; simp [stableInsert]
  | cons y ys ih =>
      intro hl
      rw [List.pairwise_cons] at hl
      by_cases h : keep y x
      · rw [show stableInsert keep x (y :: ys) = y :: stableInsert keep x ys by
          simp [stableInsert, h]]
        rw [List.pairwise_cons]
        constructor
        · intro z hz
          rcases List.mem_cons.mp ((stableInsert_perm keep x ys).mem_iff.mp hz) with hz1 | hz2
          · subst hz1; exact hkeep y z h
          · exact hl.1 z hz2
        · exact ih hl.2
      · have h2 : keep y x = false := by simpa using h
        rw [show stableInsert keep x (y :: ys) = x :: y :: ys by simp [stableInsert, h2]]
        rw [List.pairwise_cons]
        constructor
        · intro z hz
          rcases List.mem_cons.mp hz with hz1 | hz2
          · subst hz1; exact hnot z x h2
          · exact htrans x y z (hnot y x h2) (hl.1 z hz2)
        · rw [List.pairwise_cons]
          exact hl

/-! ## Stability of the descending sort -/

theorem map_snd_withPositions : ∀ (n : ℕ) (l : List α), (withPositions n l).map Prod.snd = l := by
  intro n l
  induction l generalizing n with
  | nil => rfl
  | cons a l ih => simp [withPositions, ih]

theorem mem_withPositions_le :
    ∀ (n : ℕ) (l : List α) (y : ℕ × α), y ∈ withPositions n l → n ≤ y.1 := by
  intro n l
  induction l generalizing n with
  | nil => intro y hy; simp [withPositions] at hy
  | cons a l ih =>
      intro y hy
      simp only [withPositions] at hy
      rcases List.mem_cons.mp hy with h1 | h2
      · subst h1; exact le_refl n
      · exact le_trans (Nat.le_succ n) (ih (n + 1) y h2)

theorem map_snd_stableInsert_score (x : ℕ × Subject) :
    ∀ l : List (ℕ × Subject),
      (stableInsert (fun y x => decide (pscore x.2 < pscore y.2)) x l).map Prod.snd =
        stableInsert (fun y x => decide (pscore x < pscore y)) x.2 (l.map Prod.snd) := by
  intro l
  induction l with
  | nil => rfl
  | cons y ys ih =>
      by_cases h : pscore x.2 < pscore y.2
      · simp [stableInsert, h, ih]
      · simp [stableInsert, h]

theorem map_snd_stableSort_score :
    ∀ l : List (ℕ × Subject),
      (stableSort (fun y x => decide (pscore x.2 < pscore y.2)) l).map Prod.snd =
        sortByScoreDesc (l.map Prod.snd) := by
  intro l
  induction l with
  | nil => rfl
  | cons x xs ih =>
      show (stableInsert _ x (stableSort _ xs)).map Prod.snd = _
      rw [map_snd_stableInsert_score, ih]
      rfl

theorem stableInsert_withPos_eq_spec (x : ℕ × Subject) :
    ∀ l : List (ℕ × Subject), (∀ y ∈ l, x.1 < y.1) →
      stableInsert (fun y x => decide (pscore x.2 < pscore y.2)) x l =
        stableInsert specKeepDesc x l := by
  intro l
  induction l with
  | nil => intro _; rfl
  | cons y ys ih =>
      intro hpos
      have hy : x.1 < y.1 := hpos y (List.mem_cons_self y ys)
      have hcond : specKeepDesc y x = decide (pscore x.2 < pscore y.2) := by
        unfold specKeepDesc
        by_cases h : pscore x.2 < pscore y.2
        · simp [h]
        · have hne : ¬(pscore y.2 = pscore x.2 ∧ y.1 < x.1) := fun hc => Nat.lt_asymm hy hc.2
          simp [h, hne]
      have htail := ih (fun z hz => hpos z (List.mem_cons_of_mem y hz))
      by_cases h : pscore x.2 < pscore y.2
      · simp [stableInsert, hcond, h, htail]
      · simp [stableInsert, hcond, h]

theorem stableSort_withPos_eq_spec :
    ∀ (l : List Subject) (n : ℕ),
      stableSort (fun y x => decide (pscore x.2 < pscore y.2)) (withPositions n l) =
        stableSort specKeepDesc (withPositions n l) := by
  intro l
  induction l with
  | nil => intro n; rfl
  | cons a l ih =>
      intro n
      show stableInsert _ (n, a) (stableSort _ (withPositions (n + 1) l)) =
        stableInsert specKeepDesc (n, a) (stableSort specKeepDesc (withPositions (n + 1) l))
      rw [ih (n + 1)]
      apply stableInsert_withPos_eq_spec
      intro y hy
      have hmem : y ∈ withPositions (n + 1) l := (stableSort_perm _ _).mem_iff.mp hy
      have := mem_withPositions_le (n + 1) l y hmem
      omega

/-- The source sort (comparator on scores only, stable by ES2019)
computes exactly the spec order: descending score, ties by insertion
order. -/
theorem sortByScoreDesc_eq_spec (l : List Subject) : sortByScoreDesc l = specStableSortDesc l := by
  unfold specStableSortDesc
  rw [← stableSort_withPos_eq_spec l 0, map_snd_stableSort_score, map_snd_withPositions]

theorem pairwise_stableSort {R : α → α → Prop} (keep : α → α → Bool)
    (hkeep : ∀ a b, keep a b = true → R a b) (hnot : ∀ a b, keep a b = false → R b a)
    (htrans : ∀ a b c, R a b → R b c → R a c) :
    ∀ l : List α, (stableSort keep l).Pairwise R := by
  intro l
  induction l with
  | nil => simp [stableSort]
  | cons x xs ih => exact pairwise_stableInsert keep hkeep hnot htrans x _ ih

theorem sortByScoreDesc_sorted (l : List Subject) :
    (sortByScoreDesc l).Pairwise (fun a b => pscore b ≤ pscore a) := by
  apply pairwise_stableSort
  · intro a b h; exact le_of_lt (of_decide_eq_true h)
  · intro a b h; exact le_of_not_lt (of_decide_eq_false h)
  · intro a b c h1 h2; exact le_trans h2 h1

theorem length_sortByScoreDesc (l : List Subject) :
    (sortByScoreDesc l).length = l.length :=
  length_stableSort _ l

theorem sortByScoreDesc_sorted_id :
    ∀ l : List Subject, l.Pairwise (fun a b => pscore b ≤ pscore a) → sortByScoreDesc l = l := by
  intro l
  induction l with
  | nil => intro _; rfl
  | cons a l ih =>
      intro h
      rw [List.pairwise_cons] at h
      show stableInsert _ a (sortByScoreDesc l) = a :: l
      rw [ih h.2]
      cases l with
      | nil => rfl
      | cons b l2 =>
          have hba : ¬ pscore a < pscore b := not_lt.mpr (h.1 b (List.mem_cons_self b l2))
          simp [stableInsert, hba]

/-! ## Prioritizer lemmas -/

theorem rankFrom_map_rank :
    ∀ (l : List Subject) (total i : ℕ),
      (rankFrom total i l).map (fun s => s.priorityRank) =
        (List.range l.length).map (fun j => some (i + j + 1)) := by
  intro l
  induction l with
  | nil => intro total i; rfl
  | cons a l ih =>
      intro total i
      show some (i + 1) :: (rankFrom total (i + 1) l).map (fun s => s.priorityRank) = _
      rw [ih total (i + 1), List.length_cons, List.range_succ_eq_map, List.map_cons,
        List.map_map]
      congr 1
      apply List.map_congr_left
      intro j hj
      simp only [Function.comp_apply]
      congr 1
      omega

theorem rankFrom_map_strip :
    ∀ (l : List Subject) (total i : ℕ),
      (rankFrom total i l).map stripPriority = l.map stripPriority := by
  intro l
  induction l with
  | nil => intro total i; rfl
  | cons a l ih =>
      intro total i
      show stripPriority (priorityDecorate total i a) :: _ = stripPriority a :: _
      rw [ih total (i + 1)]
      rfl

theorem mem_rankFrom_pscore :
    ∀ (l : List Subject) (total i : ℕ) (y : Subject),
      y ∈ rankFrom total i l → ∃ x ∈ l, pscore y = pscore x := by
  intro l
  induction l with
  | nil => intro total i y hy; simp [rankFrom] at hy
  | cons a l ih =>
      intro total i y hy
      simp only [rankFrom] at hy
      rcases List.mem_cons.mp hy with h1 | h2
      · exact ⟨a, List.mem_cons_self a l, by rw [h1]; rfl⟩
      · obtain ⟨x, hx, hpx⟩ := ih total (i + 1) y h2
        exact ⟨x, List.mem_cons_of_mem a hx, hpx⟩

theorem pairwise_rankFrom :
    ∀ (l : List Subject) (total i : ℕ), l.Pairwise (fun a b => pscore b ≤ pscore a) →
      (rankFrom total i l).Pairwise (fun a b => pscore b ≤ pscore a) := by
  intro l
  induction l with
  | nil => intro total i _; simp [rankFrom]
  | cons a l ih =>
      intro total i h
      rw [List.pairwise_cons] at h
      show List.Pairwise _ (priorityDecorate total i a :: rankFrom total (i + 1) l)
      rw [List.pairwise_cons]
      constructor
      · intro y hy
        obtain ⟨x, hx, hpx⟩ := mem_rankFrom_pscore l total (i + 1) y hy
        have : pscore (priorityDecorate total i a) = pscore a := rfl
        rw [this, hpx]
        exact h.1 x hx
      · exact ih total (i + 1) h.2

/-- C5: for every non-empty subject list the priority ranks of
`prioritizeSubjects` are exactly 1..N in output order (hence a
permutation of 1..N with no gaps or duplicates), the output is sorted
weakly descending by pressure score, and — up to the priority fields it
writes — it coincides with the stable descending sort by pressure
score with ties broken by original insertion order
(`specStableSortDesc`). -/
theorem prioritize_ranks_and_stable_order (l : List Subject) (hne : l ≠ []) :
    ((prioritizeSubjects l).map (fun s => s.priorityRank) =
      (List.range l.length).map (fun j => some (j + 1))) ∧
    (prioritizeSubjects l).Pairwise (fun a b => pscore b ≤ pscore a) ∧
    (prioritizeSubjects l).map stripPriority = (specStableSortDesc l).map stripPriority := by
  refine ⟨?_, ?_, ?_⟩
  · show (rankFrom (sortByScoreDesc l).length 0 (sortByScoreDesc l)).map _ = _
    rw [rankFrom_map_rank, length_sortByScoreDesc]
    apply List.map_congr_left
    intro j hj
    congr 1
    omega
  · exact pairwise_rankFrom (sortByScoreDesc l) (sortByScoreDesc l).length 0
      (sortByScoreDesc_sorted l)
  · show (rankFrom (sortByScoreDesc l).length 0 (sortByScoreDesc l)).map stripPriority = _
    rw [rankFrom_map_strip, sortByScoreDesc_eq_spec]


/-- Witness for C5 at a concrete three-subject list with a score tie. -/
theorem prioritize_ranks_and_stable_order_witness :
    (c5List ≠ []) ∧
    (((prioritizeSubjects c5List).map (fun s => s.priorityRank) =
        (List.range c5List.length).map (fun j => some (j + 1))) ∧
      (prioritizeSubjects c5List).Pairwise (fun a b => pscore b ≤ pscore a) ∧
      (prioritizeSubjects c5List).map stripPriority =
        (specStableSortDesc c5List).map stripPriority) :=
  ⟨by decide, prioritize_ranks_and_stable_order c5List (by decide)⟩

/-! ## Urgency calculator: C7 -/

theorem urgencyAnnotate_proj (today : ℤ) (sub : Subject) :
    (urgencyAnnotate today sub).daysRemaining = some (daysRemainingOf today sub) ∧
    ((urgencyAnnotate today sub).urgencyScore, (urgencyAnnotate today sub).urgencyLabel) =
      (if daysRemainingOf today sub ≤ 3 then ((some 1 : Option ℚ), some "Critical")
       else if daysRemainingOf today sub ≤ 7 then (some (4 / 5), some "High")
       else if daysRemainingOf today sub ≤ 14 then (some (1 / 2), some "Moderate")
       else (some (1 / 5), some "Low")) := by
  constructor
  · rfl
  · unfold urgencyAnnotate
    by_cases h1 : daysRemainingOf today sub ≤ 3
    · simp [h1]
    · by_cases h2 : daysRemainingOf today sub ≤ 7
      · simp [h1, h2]
      · by_cases h3 : daysRemainingOf today sub ≤ 14
        · simp [h1, h2, h3]
        · simp [h1, h2, h3]

theorem daysRemainingOf_nonneg (today : ℤ) (sub : Subject) : 0 ≤ daysRemainingOf today sub := by
  unfold daysRemainingOf
  cases hd : sub.deadline with
  | none => norm_num
  | some dl => exact le_max_left 0 _

/-- C7: the urgency calculator computes days remaining as the ceiling
of the whole-day deadline difference floored at 0 (so never negative),
30 with urgency Low when the deadline is missing, and maps days
remaining to score/label by the fixed thresholds
3/7/14 -> Critical 1.0 / High 0.8 / Moderate 0.5 / Low 0.2. -/
theorem urgency_days_and_thresholds (today : ℤ) (subjects : List Subject) (k : ℕ)
    (sub : Subject) (h : subjects.get? k = some sub) :
    ∃ s, (calculateDeadlineMetrics today subjects).get? k = some s ∧
      ∃ dr : ℤ, s.daysRemaining = some dr ∧ 0 ≤ dr ∧
        (∀ dl, sub.deadline = some dl → dr = max 0 ⌈((dl - today : ℤ) : ℚ)⌉) ∧
        (sub.deadline = none → dr = 30 ∧ s.urgencyLabel = some "Low") ∧
        (dr ≤ 3 → s.urgencyScore = some 1 ∧ s.urgencyLabel = some "Critical") ∧
        (3 < dr → dr ≤ 7 → s.urgencyScore = some (4 / 5) ∧ s.urgencyLabel = some "High") ∧
        (7 < dr → dr ≤ 14 → s.urgencyScore = some (1 / 2) ∧ s.urgencyLabel = some "Moderate") ∧
        (14 < dr → s.urgencyScore = some (1 / 5) ∧ s.urgencyLabel = some "Low") := by
  have hproj := urgencyAnnotate_proj today sub
  refine ⟨urgencyAnnotate today sub, ?_, daysRemainingOf today sub, hproj.1,
    daysRemainingOf_nonneg today sub, ?_, ?_, ?_, ?_, ?_, ?_⟩
  · rw [calculateDeadlineMetrics, List.get?_map, h]
    rfl
  · intro dl hdl
    unfold daysRemainingOf
    rw [hdl]
  · intro hdl
    have h30 : daysRemainingOf today sub = 30 := by unfold daysRemainingOf; rw [hdl]
    have h2 := hproj.2
    rw [h30] at h2
    norm_num at h2
    exact ⟨h30, h2.2⟩
  · intro h3
    have h2 := hproj.2
    rw [if_pos h3] at h2
    exact ⟨congrArg Prod.fst h2, congrArg Prod.snd h2⟩
  · intro hgt hle
    have h2 := hproj.2
    rw [if_neg (by omega), if_pos hle] at h2
    exact ⟨congrArg Prod.fst h2, congrArg Prod.snd h2⟩
  · intro hgt hle
    have h2 := hproj.2
    rw [if_neg (by omega), if_neg (by omega), if_pos hle] at h2
    exact ⟨congrArg Prod.fst h2, congrArg Prod.snd h2⟩
  · intro hgt
    have h2 := hproj.2
    rw [if_neg (by omega), if_neg (by omega), if_neg (by omega)] at h2
    exact ⟨congrArg Prod.fst h2, congrArg Prod.snd h2⟩


/-- Witness for C7: a subject with no deadline. -/
theorem urgency_days_and_thresholds_witness :
    ([c7Subject].get? 0 = some c7Subject) ∧
    (∃ s, (calculateDeadlineMetrics 0 [c7Subject]).get? 0 = some s ∧
      ∃ dr : ℤ, s.daysRemaining = some dr ∧ 0 ≤ dr ∧
        (∀ dl, c7Subject.deadline = some dl → dr = max 0 ⌈((dl - 0 : ℤ) : ℚ)⌉) ∧
        (c7Subject.deadline = none → dr = 30 ∧ s.urgencyLabel = some "Low") ∧
        (dr ≤ 3 → s.urgencyScore = some 1 ∧ s.urgencyLabel = some "Critical") ∧
        (3 < dr → dr ≤ 7 → s.urgencyScore = some (4 / 5) ∧ s.urgencyLabel = some "High") ∧
        (7 < dr → dr ≤ 14 → s.urgencyScore = some (1 / 2) ∧ s.urgencyLabel = some "Moderate") ∧
        (14 < dr → s.urgencyScore = some (1 / 5) ∧ s.urgencyLabel = some "Low")) :=
  ⟨rfl, urgency_days_and_thresholds 0 [c7Subject] 0 c7Subject rfl⟩

/-! ## Task status toggling: C8 -/

theorem toggleTask_four (t : PlanTask) :
    toggleTask (toggleTask (toggleTask (toggleTask t))) = t := by
  cases t with
  | mk id sid sn ty dm c st => cases st <;> rfl

theorem updateFirst_four (p : α → Bool) (f : α → α) (hf : ∀ a, p (f a) = p a)
    (h4 : ∀ a, f (f (f (f a))) = a) :
    ∀ l : List α, updateFirst p f (updateFirst p f (updateFirst p f (updateFirst p f l))) = l := by
  intro l
  induction l with
  | nil => rfl
  | cons x xs ih =>
      by_cases h : p x
      · have h1 : p (f x) = true := by rw [hf]; exact h
        have h2 : p (f (f x)) = true := by rw [hf, hf]; exact h
        have h3 : p (f (f (f x))) = true := by rw [hf, hf, hf]; exact h
        simp [updateFirst, h, h1, h2, h3, h4]
      · simp [updateFirst, h, ih]

theorem toggleDay_four (taskId : TaskId) (d : DayPlan) :
    toggleDay taskId (toggleDay taskId (toggleDay taskId (toggleDay taskId d))) = d := by
  cases d with
  | mk dn date wd inten tasks tm bm =>
      simp only [toggleDay]
      congr 1
      exact updateFirst_four (fun t => decide (t.id = taskId)) toggleTask (by intro a; rfl)
        toggleTask_four tasks

theorem togglePlan_four (plan : WeeklyPlan) (dayIndex : ℕ) (taskId : TaskId) :
    togglePlan (togglePlan (togglePlan (togglePlan plan dayIndex taskId) dayIndex taskId)
      dayIndex taskId) dayIndex taskId = plan := by
  cases plan with
  | mk days twh erd hd =>
      simp only [togglePlan]
      congr 1
      exact updateFirst_four (fun d => decide (d.dayNumber = dayIndex)) (toggleDay taskId)
        (by intro a; rfl) (toggleDay_four taskId) days

/-- C8: the status toggle follows the strict cycle
Pending -> Completed -> Missed -> Partially Completed -> Pending, so
toggling the same task of the same day four times returns the plan —
and in particular that task — to its original state. -/
theorem toggle_status_cycle :
    nextStatus TaskStatus.Pending = TaskStatus.Completed ∧
    nextStatus TaskStatus.Completed = TaskStatus.Missed ∧
    nextStatus TaskStatus.Missed = TaskStatus.PartiallyCompleted ∧
    nextStatus TaskStatus.PartiallyCompleted = TaskStatus.Pending ∧
    (∀ s, nextStatus (nextStatus (nextStatus (nextStatus s))) = s) ∧
    (∀ (plan : WeeklyPlan) (dayIndex : ℕ) (taskId : TaskId),
      togglePlan (togglePlan (togglePlan (togglePlan plan dayIndex taskId) dayIndex taskId)
        dayIndex taskId) dayIndex taskId = plan) := by
  refine ⟨rfl, rfl, rfl, rfl, ?_, ?_⟩
  · intro s; cases s <;> rfl
  · exact togglePlan_four

/-! ## Profile updates: C9 -/


/-- C9 counterexample: updating the daily hours of a profile holding 4
with the out-of-range value 0 stores 4 (the update is rejected), not
the clamped value 1 the claim requires. -/
theorem hours_update_not_clamped :
    (updateStudentProfile c9Profile 0).availableHoursPerDay = 4 ∧
    specClamp 0 = 1 ∧
    ¬ (updateStudentProfile c9Profile 0).availableHoursPerDay = specClamp 0 := by
  decide

/-- C9 amended: an out-of-range daily-hours update is rejected outright
(the profile is left unchanged rather than clamped), an in-range value
is stored as given, and consequently a profile whose daily hours lie in
[1, 24] keeps daily hours in [1, 24] across any update. -/
theorem hours_update_rejects_out_of_range (p : StudentProfile) (v : ℚ) :
    ((v < 1 ∨ 24 < v) → updateStudentProfile p v = p) ∧
    (1 ≤ v → v ≤ 24 → (updateStudentProfile p v).availableHoursPerDay = v) ∧
    (1 ≤ p.availableHoursPerDay → p.availableHoursPerDay ≤ 24 →
      1 ≤ (updateStudentProfile p v).availableHoursPerDay ∧
        (updateStudentProfile p v).availableHoursPerDay ≤ 24) := by
  refine ⟨?_, ?_, ?_⟩
  · intro h
    simp [updateStudentProfile, h]
  · intro h1 h2
    have hno : ¬(v < 1 ∨ 24 < v) := by push_neg; exact ⟨h1, h2⟩
    simp [updateStudentProfile, hno]
  · intro h1 h2
    by_cases h : v < 1 ∨ 24 < v
    · simp [updateStudentProfile, h]
      exact ⟨h1, h2⟩
    · push_neg at h
      simp [updateStudentProfile, not_or.mpr ⟨not_lt.mpr h.1, not_lt.mpr h.2⟩]
      exact h

/-- Witness for the C9 amended theorem: the out-of-range value 0 is
rejected and leaves the profile unchanged. -/
theorem hours_update_rejects_out_of_range_witness :
    ((0 : ℚ) < 1 ∨ 24 < (0 : ℚ)) ∧ updateStudentProfile c9Profile 0 = c9Profile :=
  ⟨Or.inl (by norm_num),
    (hours_update_rejects_out_of_range c9Profile 0).1 (Or.inl (by norm_num))⟩

/-! ## Pressure scorer: C6 -/




theorem scenarioA_deadline :
    calculateDeadlineMetrics 0 [scenarioASubject] = [scenarioAAnnotated] := by
  norm_num [calculateDeadlineMetrics, urgencyAnnotate, daysRemainingOf, scenarioASubject,
    scenarioAAnnotated]

theorem scenarioA_score : pressureScoreOf scenarioAProfile scenarioAAnnotated = 102 / 5 := by
  rw [pressureScoreOf, roundTo, jsRound]
  norm_num [diffMap, stressMap, paceMap, scenarioAProfile, scenarioAAnnotated]

theorem scenarioA_pressure :
    (calculatePressureMetrics [scenarioAAnnotated] scenarioAProfile).map
      (fun s => (s.pressureScore, s.pressureCategory)) =
    [(some (102 / 5), some PressureCategory.Critical)] := by
  simp only [calculatePressureMetrics, List.map_cons, List.map_nil]
  norm_num [scoreAnnotate, categoryAnnotate, sortByScoreDesc, stableSort, stableInsert,
    scenarioA_score]

/-- C6: the pressure scorer computes
`max(1, round(backlog * difficultyWeight * urgency * stressMult * paceMult, 2))`
with the stated weight tables, so every subject scores at least 1;
scenario A (10 chapters, High difficulty, deadline in 2 days, 4 h/day,
Fast pace, High stress) gets urgency Critical 1.0, pressure score 20.4
and pressure category Critical. -/
theorem pressure_floor_formula_and_scenarioA (profile : StudentProfile)
    (subjects : List Subject) :
    (∀ s ∈ calculatePressureMetrics subjects profile, ∃ q, s.pressureScore = some q ∧ 1 ≤ q) ∧
    (∀ k sub, subjects.get? k = some sub →
      ∃ s, (calculatePressureMetrics subjects profile).get? k = some s ∧
        s.pressureScore = some (max 1 (roundTo 2 (sub.backlogChapters * diffMap sub.difficulty *
          sub.urgencyScore.getD (1 / 5) * stressMap profile.stressLevel *
          paceMap profile.learningPace)))) ∧
    (diffMap DifficultyLevel.Low = 1 ∧ diffMap DifficultyLevel.Moderate = 3 / 2 ∧
      diffMap DifficultyLevel.High = 2) ∧
    (stressMap StressLevel.Low = 9 / 10 ∧ stressMap StressLevel.Moderate = 1 ∧
      stressMap StressLevel.High = 6 / 5) ∧
    (paceMap LearningPace.Slow = 6 / 5 ∧ paceMap LearningPace.Moderate = 1 ∧
      paceMap LearningPace.Fast = 17 / 20) ∧
    ((calculateDeadlineMetrics 0 [scenarioASubject]).map
        (fun s => (s.daysRemaining, s.urgencyScore, s.urgencyLabel)) =
      [(some 2, some 1, some "Critical")]) ∧
    ((calculatePressureMetrics (calculateDeadlineMetrics 0 [scenarioASubject])
        scenarioAProfile).map (fun s => (s.pressureScore, s.pressureCategory)) =
      [(some (102 / 5), some PressureCategory.Critical)]) := by
  refine ⟨?_, ?_, ⟨rfl, rfl, rfl⟩, ⟨rfl, rfl, rfl⟩, ⟨rfl, rfl, rfl⟩, by decide,
    by rw [scenarioA_deadline]; exact scenarioA_pressure⟩
  · intro s hs
    simp only [calculatePressureMetrics, List.mem_map] at hs
    obtain ⟨a, ha, rfl⟩ := hs
    obtain ⟨sub, hsub, rfl⟩ := ha
    exact ⟨pressureScoreOf profile sub, rfl, le_max_left 1 _⟩
  · intro k sub hk
    refine ⟨categoryAnnotate (sortByScoreDesc (subjects.map (scoreAnnotate profile)))
      (scoreAnnotate profile sub), ?_, rfl⟩
    simp only [calculatePressureMetrics]
    rw [List.get?_map, List.get?_map, hk]
    rfl

/-- Witness for C6 at the scenario-A subject (no urgency annotation, so
the default urgency 0.2 applies). -/
theorem pressure_floor_formula_and_scenarioA_witness :
    ([scenarioASubject].get? 0 = some scenarioASubject) ∧
    (∃ s, (calculatePressureMetrics [scenarioASubject] scenarioAProfile).get? 0 = some s ∧
      s.pressureScore = some (max 1 (roundTo 2 (scenarioASubject.backlogChapters *
        diffMap scenarioASubject.difficulty * scenarioASubject.urgencyScore.getD (1 / 5) *
        stressMap scenarioAProfile.stressLevel * paceMap scenarioAProfile.learningPace)))) :=
  ⟨rfl, (pressure_floor_formula_and_scenarioA scenarioAProfile [scenarioASubject]).2.1
    0 scenarioASubject rfl⟩

/-! ## Time allocator: C1 (scenario B) -/







theorem scenarioB_adjusted : adjustedCapacityOf scenarioBProfile 1 = 4 := by
  rw [adjustedCapacityOf]
  norm_num [scenarioBProfile]

theorem scenarioB_buffer : bufferTimeOf scenarioBProfile 1 = 2 / 5 := by
  rw [bufferTimeOf, jsRound, scenarioB_adjusted,
    show bufferRateOf scenarioBProfile = 1 / 10 from rfl]
  norm_num

theorem scenarioB_usable : usableHoursOf scenarioBProfile 1 = 18 / 5 := by
  rw [usableHoursOf, scenarioB_adjusted, scenarioB_buffer]
  norm_num

theorem scenarioB_subjects : scenarioBResult.1 = [scenarioBOutB, scenarioBOutA] := by
  simp only [scenarioBResult, allocateTime]
  rw [scenarioB_adjusted, scenarioB_usable,
    show minPerSubjectOf scenarioBProfile = 1 / 2 from rfl]
  norm_num [pscore, prank, scenarioBSubjectA, scenarioBSubjectB, jsRound, sortByRankAsc,
    stableSort, stableInsert, scenarioBOutA, scenarioBOutB, scenarioBProfile]

/-- C1 counterexample: with pressure scores 10 and 30, 4 nominal daily
hours, Moderate stress and pace and load factor 1.0, the usable hours
are indeed 3.6, but subject B is allocated 2.0 hours (not the claimed
2.7: its raw share 2.7 exceeds the 2.0 ceiling and is clamped) and
subject A is allocated 1.0 hours (not the claimed 0.9: 0.9 is rounded
to the nearest quarter hour, 1.0). -/
theorem allocate_scenarioB_counterexample :
    usableHoursOf scenarioBProfile 1 = 18 / 5 ∧
    (scenarioBResult.1.map fun s => (s.name, s.allocatedHours)) =
      [("B", some 2), ("A", some 1)] ∧
    ((2 : ℚ) ≠ 27 / 10) ∧ ((1 : ℚ) ≠ 9 / 10) := by
  refine ⟨scenarioB_usable, ?_, by norm_num, by norm_num⟩
  rw [scenarioB_subjects]
  rfl

/-- C1 amended: usable hours are 3.6 and the raw proportional shares
are 2.7 (B) and 0.9 (A); B's raw share is clamped to the 2.0-hour
ceiling (50% of capacity), so B is allocated 2.0 hours, and A's 0.9 is
rounded to the nearest quarter hour, 1.0; neither allocation exceeds
the 2.0-hour ceiling and each is a multiple of 0.25. -/
theorem allocate_scenarioB_amended :
    usableHoursOf scenarioBProfile 1 = 18 / 5 ∧
    bufferTimeOf scenarioBProfile 1 = 2 / 5 ∧
    pscore scenarioBSubjectB / (pscore scenarioBSubjectA + pscore scenarioBSubjectB) *
      usableHoursOf scenarioBProfile 1 = 27 / 10 ∧
    pscore scenarioBSubjectA / (pscore scenarioBSubjectA + pscore scenarioBSubjectB) *
      usableHoursOf scenarioBProfile 1 = 9 / 10 ∧
    adjustedCapacityOf scenarioBProfile 1 * (1 / 2) = 2 ∧
    (scenarioBResult.1.map fun s => (s.name, s.allocatedHours)) =
      [("B", some 2), ("A", some 1)] ∧
    (scenarioBResult.1.map fun s => decide (s.allocatedHours.getD 0 ≤ 2)) = [true, true] ∧
    (scenarioBResult.1.map fun s => s.allocatedHours.getD 0 * 4) = [8, 4] := by
  refine ⟨scenarioB_usable, scenarioB_buffer, ?_, ?_, ?_, ?_, ?_, ?_⟩
  · rw [scenarioB_usable]
    norm_num [pscore, scenarioBSubjectA, scenarioBSubjectB]
  · rw [scenarioB_usable]
    norm_num [pscore, scenarioBSubjectA, scenarioBSubjectB]
  · rw [scenarioB_adjusted]; norm_num
  · rw [scenarioB_subjects]
    rfl
  · rw [scenarioB_subjects]
    norm_num [scenarioBOutA, scenarioBOutB]
  · rw [scenarioB_subjects]
    norm_num [scenarioBOutA, scenarioBOutB]

/-! ## Rebalance lemmas (C2, C3) -/

theorem length_placeClones :
    ∀ (ts : List PlanTask) (k : ℕ) (days : List DayPlan),
      (placeClones k ts days).length = days.length := by
  intro ts
  induction ts with
  | nil => intro k days; rfl
  | cons t ts ih =>
      intro k days
      rw [show placeClones k (t :: ts) days =
        placeClones (k + 1) ts (modifyIdx (insertClone t) (k % 6 + 1) days) from rfl]
      rw [ih, length_modifyIdx]

theorem placeClones_get? :
    ∀ (ts : List PlanTask) (k : ℕ) (days : List DayPlan) (j : ℕ) (d : DayPlan),
      days.get? j = some d →
      ∃ e, (placeClones k ts days).get? j = some e ∧
        e.dayNumber = d.dayNumber ∧ e.date = d.date ∧ e.weekday = d.weekday ∧
        e.intensity = d.intensity ∧ e.bufferMinutes = d.bufferMinutes ∧
        e.totalMinutes = d.totalMinutes + assignedMinutes j k ts ∧
        (∀ t ∈ d.tasks, t ∈ e.tasks) := by
  intro ts
  induction ts with
  | nil =>
      intro k days j d h
      exact ⟨d, h, rfl, rfl, rfl, rfl, rfl, by simp [assignedMinutes], fun t ht => ht⟩
  | cons t ts ih =>
      intro k days j d h
      by_cases hj : k % 6 + 1 = j
      · have h1 : (modifyIdx (insertClone t) (k % 6 + 1) days).get? j =
            some (insertClone t d) := by
          rw [get?_modifyIdx, if_pos hj, h]
          rfl
        obtain ⟨e, he, hdn, hdate, hwd, hint, hbm, htm, hts⟩ :=
          ih (k + 1) (modifyIdx (insertClone t) (k % 6 + 1) days) j (insertClone t d) h1
        refine ⟨e, he, hdn, hdate, hwd, hint, hbm, ?_, ?_⟩
        · rw [htm]
          show d.totalMinutes + t.durationMinutes + assignedMinutes j (k + 1) ts =
            d.totalMinutes + ((if k % 6 + 1 = j then t.durationMinutes else 0) +
              assignedMinutes j (k + 1) ts)
          rw [if_pos hj]
          omega
        · intro u hu
          exact hts u (List.mem_cons_of_mem _ hu)
      · have h1 : (modifyIdx (insertClone t) (k % 6 + 1) days).get? j = some d := by
          rw [get?_modifyIdx, if_neg hj, h]
        obtain ⟨e, he, hdn, hdate, hwd, hint, hbm, htm, hts⟩ :=
          ih (k + 1) (modifyIdx (insertClone t) (k % 6 + 1) days) j d h1
        refine ⟨e, he, hdn, hdate, hwd, hint, hbm, ?_, hts⟩
        rw [htm]
        show d.totalMinutes + assignedMinutes j (k + 1) ts =
          d.totalMinutes + ((if k % 6 + 1 = j then t.durationMinutes else 0) +
            assignedMinutes j (k + 1) ts)
        rw [if_neg hj]
        omega

theorem placeClones_get?_zero :
    ∀ (ts : List PlanTask) (k : ℕ) (days : List DayPlan),
      (placeClones k ts days).get? 0 = days.get? 0 := by
  intro ts
  induction ts with
  | nil => intro k days; rfl
  | cons t ts ih =>
      intro k days
      rw [show placeClones k (t :: ts) days =
        placeClones (k + 1) ts (modifyIdx (insertClone t) (k % 6 + 1) days) from rfl]
      rw [ih, get?_modifyIdx, if_neg (by omega)]

theorem placeClones_clone_mem :
    ∀ (ts : List PlanTask) (k : ℕ) (days : List DayPlan), days.length = 7 →
      ∀ (m : ℕ) (t : PlanTask), ts.get? m = some t →
        ∃ e, (placeClones k ts days).get? ((k + m) % 6 + 1) = some e ∧
          resched t ∈ e.tasks := by
  intro ts
  induction ts with
  | nil => intro k days h7 m t hm; simp at hm
  | cons t0 ts ih =>
      intro k days h7 m t hm
      have hlen1 : (modifyIdx (insertClone t0) (k % 6 + 1) days).length = 7 := by
        rw [length_modifyIdx]; exact h7
      cases m with
      | zero =>
          rw [List.get?_cons_zero, Option.some.injEq] at hm
          subst hm
          have hidx : k % 6 + 1 < days.length := by rw [h7]; omega
          obtain ⟨d, hd⟩ : ∃ d, days.get? (k % 6 + 1) = some d :=
            ⟨days.get ⟨k % 6 + 1, hidx⟩, List.get?_eq_get hidx⟩
          have hd1 : (modifyIdx (insertClone t0) (k % 6 + 1) days).get? (k % 6 + 1) =
              some (insertClone t0 d) := by
            rw [get?_modifyIdx, if_pos rfl, hd]
            rfl
          obtain ⟨e, he, _, _, _, _, _, _, hts⟩ :=
            placeClones_get? ts (k + 1) (modifyIdx (insertClone t0) (k % 6 + 1) days)
              (k % 6 + 1) (insertClone t0 d) hd1
          refine ⟨e, ?_, hts (resched t0) (List.mem_cons_self _ _)⟩
          rw [show placeClones k (t0 :: ts) days =
            placeClones (k + 1) ts (modifyIdx (insertClone t0) (k % 6 + 1) days) from rfl]
          rw [show (k + 0) % 6 + 1 = k % 6 + 1 by omega]
          exact he
      | succ m2 =>
          rw [List.get?_cons_succ] at hm
          obtain ⟨e, he, hmem⟩ :=
            ih (k + 1) (modifyIdx (insertClone t0) (k % 6 + 1) days) hlen1 m2 t hm
          refine ⟨e, ?_, hmem⟩
          rw [show placeClones k (t0 :: ts) days =
            placeClones (k + 1) ts (modifyIdx (insertClone t0) (k % 6 + 1) days) from rfl]
          rw [show (k + (m2 + 1)) % 6 + 1 = (k + 1 + m2) % 6 + 1 by omega]
          exact he

theorem get?_freshen :
    ∀ (l : List PlanTask) (n k : ℕ),
      (freshen n l).get? k = (l.get? k).map
        (fun t => { t with status := TaskStatus.Pending, id := TaskId.uuid (n + k) }) := by
  intro l
  induction l with
  | nil => intro n k; cases k <;> rfl
  | cons t l ih =>
      intro n k
      cases k with
      | zero => rfl
      | succ k2 =>
          show (freshen (n + 1) l).get? k2 = _
          rw [ih (n + 1) k2, show n + 1 + k2 = n + (k2 + 1) by omega]
          rfl

theorem assignedMinutes_freshen :
    ∀ (l : List PlanTask) (j n k : ℕ),
      assignedMinutes j k (freshen n l) = assignedMinutes j k l := by
  intro l
  induction l with
  | nil => intro j n k; rfl
  | cons t l ih =>
      intro j n k
      show (if k % 6 + 1 = j then t.durationMinutes else 0) +
        assignedMinutes j (k + 1) (freshen (n + 1) l) = _
      rw [ih]
      rfl

theorem mem_collectMissed (days : List DayPlan) (j : ℕ) (d : DayPlan) (t : PlanTask)
    (hd : days.get? j = some d) (ht : t ∈ d.tasks) (hm : t.status = TaskStatus.Missed) :
    t ∈ collectMissed days := by
  rw [collectMissed, List.mem_filter]
  constructor
  · rw [List.mem_flatten]
    exact ⟨d.tasks, List.mem_map_of_mem _ (List.get?_mem hd), ht⟩
  · exact decide_eq_true hm

/-- C3: the rebalance collects every Missed task, inserts for the k-th
one a fresh Pending clone prefixed "(Rescheduled)" with the new id
`nextId + k` into the day of index `(k % 6) + 1` (always between 1 and
6, never day 0, whose entry is untouched), adds the clone durations to
the target day total minutes without re-checking capacity, leaves every
original task (in particular every Missed one, still Missed) in its
day, and afterwards forces the load-adjustment factor to 0.95. -/
theorem rebalance_clones_roundrobin (profile : StudentProfile) (hist : History) (nextId : ℕ)
    (R : EngineResults) (h7 : R.weeklyPlan.days.length = 7)
    (hFresh : ∀ d ∈ R.weeklyPlan.days, ∀ t ∈ d.tasks, uuidBelow nextId t = true) :
    rebalanceSpec profile hist nextId R := by
  refine ⟨rfl, ?_, ?_, ?_, ?_, ?_, rfl⟩
  · show (rebalanceDays nextId R.weeklyPlan.days).length = _
    rw [rebalanceDays, length_placeClones]
  · show (rebalanceDays nextId R.weeklyPlan.days).get? 0 = _
    rw [rebalanceDays, placeClones_get?_zero]
  · intro k t hk
    refine ⟨⟨by omega, by omega⟩, ?_⟩
    have hfk : (freshen nextId (collectMissed R.weeklyPlan.days)).get? k =
        some { t with status := TaskStatus.Pending, id := TaskId.uuid (nextId + k) } := by
      rw [get?_freshen, hk]
      rfl
    obtain ⟨e, he, hmem⟩ := placeClones_clone_mem
      (freshen nextId (collectMissed R.weeklyPlan.days)) 0 R.weeklyPlan.days h7 k _ hfk
    refine ⟨e, ?_, hmem⟩
    show (rebalanceDays nextId R.weeklyPlan.days).get? (k % 6 + 1) = some e
    rw [rebalanceDays, show k % 6 + 1 = (0 + k) % 6 + 1 by omega]
    exact he
  · intro k t hk
    refine ⟨rfl, rfl, rfl, rfl, ?_⟩
    intro j d hj u hu hid
    have hb := hFresh d (List.get?_mem hj) u hu
    rw [uuidBelow, hid] at hb
    have := of_decide_eq_true hb
    omega
  · intro j d hj
    obtain ⟨e, he, hdn, hdate, hwd, hint, hbm, htm, hts⟩ :=
      placeClones_get? (freshen nextId (collectMissed R.weeklyPlan.days)) 0
        R.weeklyPlan.days j d hj
    refine ⟨e, he, hdn, hdate, hwd, hint, hbm, ?_, hts⟩
    rw [htm, assignedMinutes_freshen]

/-- Witness for C3: the concrete 7-day plan `ceDays` with one Missed
task and fresh counter 100. -/
theorem rebalance_clones_roundrobin_witness :
    (ceResults.weeklyPlan.days.length = 7) ∧
    (∀ d ∈ ceResults.weeklyPlan.days, ∀ t ∈ d.tasks, uuidBelow 100 t = true) ∧
    rebalanceSpec ceProfile ceHist 100 ceResults :=
  ⟨by decide, by decide,
    rebalance_clones_roundrobin ceProfile ceHist 100 ceResults (by decide) (by decide)⟩

/-- C2 counterexample: in the 7-day plan `ceDays`, whose only Missed
task "Math" lives in the day of index 3, rebalancing keeps that task —
still Missed — in its original day, and the "(Rescheduled) Math"
Pending clone lands in the day of index 1, which is earlier than the
original day; no day after index 3 holds any task at all.  This
falsifies both parts of the claim: the task still appears Missed in its
original day, and the clone does not appear in a later day. -/
theorem rebalance_missed_counterexample :
    (rebalanceDays 100 ceDays).map (fun d => d.tasks.map fun c => (c.subjectName, c.status)) =
      [[], [("(Rescheduled) Math", TaskStatus.Pending)], [],
        [("Math", TaskStatus.Missed)], [], [], []] := by
  decide

/-- C2 amended: after rebalance the Missed task still appears — with
status Missed — in its original day (only a clone is added, the
original is not removed), while a Pending clone whose subject name is
prefixed "(Rescheduled)" appears in a day of index between 1 and 6 of
the plan (not necessarily a later day than the original). -/
theorem rebalance_missed_task_fate (days : List DayPlan) (nextId : ℕ) (h7 : days.length = 7)
    (j : ℕ) (d : DayPlan) (t : PlanTask) (hd : days.get? j = some d) (ht : t ∈ d.tasks)
    (hm : t.status = TaskStatus.Missed) :
    (∃ e, (rebalanceDays nextId days).get? j = some e ∧ t ∈ e.tasks ∧
      t.status = TaskStatus.Missed) ∧
    (∃ i, 1 ≤ i ∧ i ≤ 6 ∧ ∃ e c, (rebalanceDays nextId days).get? i = some e ∧
      c ∈ e.tasks ∧ c.subjectName = "(Rescheduled) " ++ t.subjectName ∧
      c.status = TaskStatus.Pending) := by
  constructor
  · obtain ⟨e, he, _, _, _, _, _, _, hts⟩ :=
      placeClones_get? (freshen nextId (collectMissed days)) 0 days j d hd
    exact ⟨e, he, hts t ht, hm⟩
  · have hmem : t ∈ collectMissed days := mem_collectMissed days j d t hd ht hm
    obtain ⟨k, hk⟩ := List.get?_of_mem hmem
    have hfk : (freshen nextId (collectMissed days)).get? k =
        some { t with status := TaskStatus.Pending, id := TaskId.uuid (nextId + k) } := by
      rw [get?_freshen, hk]
      rfl
    obtain ⟨e, he, hmem2⟩ := placeClones_clone_mem
      (freshen nextId (collectMissed days)) 0 days h7 k _ hfk
    refine ⟨k % 6 + 1, by omega, by omega, e, _, ?_, hmem2, rfl, rfl⟩
    rw [rebalanceDays, show k % 6 + 1 = (0 + k) % 6 + 1 by omega]
    exact he

/-- Witness for the C2 amended theorem at the concrete plan `ceDays`. -/
theorem rebalance_missed_task_fate_witness :
    (ceDays.length = 7) ∧ (ceDays.get? 3 = some (ceDay 3 [ceTask])) ∧
    (ceTask ∈ (ceDay 3 [ceTask]).tasks) ∧ (ceTask.status = TaskStatus.Missed) ∧
    ((∃ e, (rebalanceDays 100 ceDays).get? 3 = some e ∧ ceTask ∈ e.tasks ∧
      ceTask.status = TaskStatus.Missed) ∧
    (∃ i, 1 ≤ i ∧ i ≤ 6 ∧ ∃ e c, (rebalanceDays 100 ceDays).get? i = some e ∧
      c ∈ e.tasks ∧ c.subjectName = "(Rescheduled) " ++ ceTask.subjectName ∧
      c.status = TaskStatus.Pending)) :=
  ⟨by decide, by decide, by decide, by decide,
    rebalance_missed_task_fate ceDays 100 (by decide) 3 (ceDay 3 [ceTask]) ceTask
      (by decide) (by decide) (by decide)⟩

/-! ## Toggle frame property: C10 -/

/-- C10: toggling a task changes at most the status of the single task
with the given id in the first day with the given number; every other
task and field of the plan, and every other result field, is
unchanged (the subject list is re-sorted in place by the metric
recomputation, which is the identity on the sorted lists the engine
produces); only the adaptive metrics are recomputed. -/
theorem toggleFrameSpecOn_refl (R : EngineResults) (dayIndex : ℕ) (taskId : TaskId) :
    toggleFrameSpecOn R R dayIndex taskId :=
  ⟨rfl, rfl, rfl, rfl, rfl, rfl, rfl, fun _ => rfl, fun _ d hd =>
    ⟨d, hd, rfl, rfl, rfl, rfl, rfl, rfl, rfl, fun _ t htk =>
      ⟨t, htk, rfl, rfl, rfl, rfl, rfl, rfl, Or.inl rfl⟩⟩⟩

theorem toggle_changes_only_status (profile : StudentProfile) (hist : History)
    (R : EngineResults) (dayIndex : ℕ) (taskId : TaskId) :
    toggleFrameSpec profile hist R dayIndex taskId := by
  rw [toggleFrameSpec]
  cases hfd : R.weeklyPlan.days.find? (fun d => decide (d.dayNumber = dayIndex)) with
  | none =>
      have hR : toggleTaskStatus profile hist R dayIndex taskId = R := by
        simp only [toggleTaskStatus, hfd]
      rw [hR]
      exact toggleFrameSpecOn_refl R dayIndex taskId
  | some day =>
      cases hft : day.tasks.find? (fun t => decide (t.id = taskId)) with
      | none =>
          have hR : toggleTaskStatus profile hist R dayIndex taskId = R := by
            simp only [toggleTaskStatus, hfd, hft]
          rw [hR]
          exact toggleFrameSpecOn_refl R dayIndex taskId
      | some t0 =>
          have hR : toggleTaskStatus profile hist R dayIndex taskId =
              { R with
                weeklyPlan := togglePlan R.weeklyPlan dayIndex taskId
                prioritizedSubjects := sortByScoreDesc R.prioritizedSubjects
                adaptiveMetrics := calculateAdaptiveMetrics
                  (togglePlan R.weeklyPlan dayIndex taskId) R.prioritizedSubjects
                  profile hist } := by
            simp only [toggleTaskStatus, hfd, hft]
          rw [hR]
          refine ⟨length_updateFirst _ _ _, rfl, rfl, rfl, rfl, rfl, rfl,
            fun hs => sortByScoreDesc_sorted_id _ hs, ?_⟩
          intro j d hd
          rcases get?_updateFirst (fun d => decide (d.dayNumber = dayIndex))
            (toggleDay taskId) R.weeklyPlan.days j d hd with h1 | ⟨h1, h2, h3⟩
          · exact ⟨d, h1, rfl, rfl, rfl, rfl, rfl, rfl, rfl, fun k t htk =>
              ⟨t, htk, rfl, rfl, rfl, rfl, rfl, rfl, Or.inl rfl⟩⟩
          · refine ⟨toggleDay taskId d, h1, rfl, rfl, rfl, rfl, rfl, rfl,
              length_updateFirst _ _ _, ?_⟩
            intro k t htk
            rcases get?_updateFirst (fun t => decide (t.id = taskId)) toggleTask
              d.tasks k t htk with g1 | ⟨g1, g2, g3⟩
            · exact ⟨t, g1, rfl, rfl, rfl, rfl, rfl, rfl, Or.inl rfl⟩
            · refine ⟨toggleTask t, g1, rfl, rfl, rfl, rfl, rfl, rfl,
                Or.inr ⟨rfl, of_decide_eq_true g2, of_decide_eq_true h2, ?_, ?_⟩⟩
              · intro m v hm hv hveq
                exact of_decide_eq_false (g3 m v hm hv) hveq
              · intro m e2 hm he2 heq
                exact of_decide_eq_false (h3 m e2 hm he2) heq

/-- Witness for C10 at the concrete results `ceResults`, toggling the
Missed task of day number 4. -/
theorem toggle_changes_only_status_witness :
    (ceResults.weeklyPlan.days.get? 3 = some (ceDay 3 [ceTask])) ∧
    (ceResults.prioritizedSubjects.Pairwise (fun a b => pscore b ≤ pscore a)) ∧
    toggleFrameSpec ceProfile ceHist ceResults 4 (TaskId.uuid 5) :=
  ⟨by decide, List.Pairwise.nil,
    toggle_changes_only_status ceProfile ceHist ceResults 4 (TaskId.uuid 5)⟩

/-! ## Weekly plan capacity invariant: C4 -/

theorem dayMult_pos (w : ℕ) : 0 < (getDayProfile w).2 := by
  rw [getDayProfile]
  split_ifs <;> norm_num

theorem dayCap_nonneg (hours : ℚ) (hh : 0 ≤ hours) (w : ℕ) : 0 ≤ dayCap hours w := by
  rw [dayCap]
  exact mul_nonneg (mul_nonneg hh (by norm_num)) (le_of_lt (dayMult_pos w))

theorem initDays_good (hours : ℚ) (hh : 0 ≤ hours) (todayWD : ℕ) (todayNum : ℤ) :
    ∀ d ∈ initDays todayWD todayNum, GoodDay hours d := by
  intro d hd
  rw [initDays] at hd
  obtain ⟨i, hi, rfl⟩ := List.mem_map.mp hd
  exact ⟨rfl, by simpa using dayCap_nonneg hours hh _⟩

theorem mkSessionTasks_nonBuffer (sub : Subject) (ctr actual : ℕ) :
    ∀ t ∈ (mkSessionTasks sub ctr actual).1, decide (t.type ≠ TaskType.Buffer) = true := by
  intro t ht
  by_cases h : 90 < actual
  · simp only [mkSessionTasks, if_pos h] at ht
    rcases List.mem_cons.mp ht with h1 | h2
    · subst h1; rfl
    · rcases List.mem_cons.mp h2 with h3 | h4
      · subst h3; rfl
      · simp at h4
  · simp only [mkSessionTasks, if_neg h] at ht
    rcases List.mem_cons.mp ht with h1 | h2
    · subst h1
      by_cases h40 : actual < 40 <;> simp [h40]
    · simp at h2

theorem mkSessionTasks_sum (sub : Subject) (ctr actual : ℕ) :
    ((mkSessionTasks sub ctr actual).1.map (fun t => t.durationMinutes)).sum = actual := by
  by_cases h : 90 < actual
  · simp only [mkSessionTasks, if_pos h, List.map_cons, List.map_nil, List.sum_cons,
      List.sum_nil]
    omega
  · simp only [mkSessionTasks, if_neg h, List.map_cons, List.map_nil, List.sum_cons,
      List.sum_nil]
    omega

theorem foldl_preserve {α β : Type} {P : β → Prop} (f : β → α → β)
    (h : ∀ b a, P b → P (f b a)) :
    ∀ (l : List α) (b : β), P b → P (l.foldl f b) := by
  intro l
  induction l with
  | nil => intro b hb; exact hb
  | cons a l ih => intro b hb; exact ih _ (h b a hb)

theorem placeSession_cases (profile : StudentProfile) (sub : Subject) (mps : ℕ)
    (st : List DayPlan × ℕ) (i : ℕ) :
    placeSession profile sub mps st i = st ∨
    ∃ (day : DayPlan) (actual : ℕ), st.1.get? i = some day ∧ 15 ≤ actual ∧
      ((actual : ℚ)) ≤ dayCap profile.availableHoursPerDay day.weekday -
        (day.totalMinutes : ℚ) ∧
      (placeSession profile sub mps st i).1 = st.1.set i
        { day with
            tasks := day.tasks ++ (mkSessionTasks sub st.2 actual).1
            totalMinutes := day.totalMinutes + actual } := by
  cases hq : st.1.get? i with
  | none =>
      left
      unfold placeSession
      rw [hq]
  | some day =>
      have hunf : placeSession profile sub mps st i =
          if deadlineSkip sub day.date then st
          else if dayCap profile.availableHoursPerDay day.weekday -
              (day.totalMinutes : ℚ) < 15 then st
          else if (if dayCap profile.availableHoursPerDay day.weekday -
                (day.totalMinutes : ℚ) < (mps : ℚ) then
                (⌊dayCap profile.availableHoursPerDay day.weekday -
                  (day.totalMinutes : ℚ)⌋).toNat
              else mps) < 15 then st
          else
            (st.1.set i
              { day with
                  tasks := day.tasks ++ (mkSessionTasks sub st.2
                    (if dayCap profile.availableHoursPerDay day.weekday -
                        (day.totalMinutes : ℚ) < (mps : ℚ) then
                      (⌊dayCap profile.availableHoursPerDay day.weekday -
                        (day.totalMinutes : ℚ)⌋).toNat
                    else mps)).1
                  totalMinutes := day.totalMinutes +
                    (if dayCap profile.availableHoursPerDay day.weekday -
                        (day.totalMinutes : ℚ) < (mps : ℚ) then
                      (⌊dayCap profile.availableHoursPerDay day.weekday -
                        (day.totalMinutes : ℚ)⌋).toNat
                    else mps) },
             (mkSessionTasks sub st.2
                (if dayCap profile.availableHoursPerDay day.weekday -
                    (day.totalMinutes : ℚ) < (mps : ℚ) then
                  (⌊dayCap profile.availableHoursPerDay day.weekday -
                    (day.totalMinutes : ℚ)⌋).toNat
                else mps)).2) := by
        unfold placeSession
        rw [hq]
      rw [hunf]
      by_cases hskip : deadlineSkip sub day.date
      · left; rw [if_pos hskip]
      · rw [if_neg hskip]
        by_cases hrem : dayCap profile.availableHoursPerDay day.weekday -
            (day.totalMinutes : ℚ) < 15
        · left; rw [if_pos hrem]
        · rw [if_neg hrem]
          by_cases hact : (if dayCap profile.availableHoursPerDay day.weekday -
                (day.totalMinutes : ℚ) < (mps : ℚ) then
                (⌊dayCap profile.availableHoursPerDay day.weekday -
                  (day.totalMinutes : ℚ)⌋).toNat
              else mps) < 15
          · left; rw [if_pos hact]
          · rw [if_neg hact]
            right
            refine ⟨day,
              (if dayCap profile.availableHoursPerDay day.weekday -
                  (day.totalMinutes : ℚ) < (mps : ℚ) then
                (⌊dayCap profile.availableHoursPerDay day.weekday -
                  (day.totalMinutes : ℚ)⌋).toNat
              else mps), rfl, not_lt.mp hact, ?_, rfl⟩
            by_cases hc : dayCap profile.availableHoursPerDay day.weekday -
                (day.totalMinutes : ℚ) < (mps : ℚ)
            · rw [if_pos hc]
              have h0 : (0 : ℚ) ≤ dayCap profile.availableHoursPerDay day.weekday -
                  (day.totalMinutes : ℚ) := by linarith [not_lt.mp hrem]
              have hfl : (0 : ℤ) ≤ ⌊dayCap profile.availableHoursPerDay day.weekday -
                  (day.totalMinutes : ℚ)⌋ := Int.floor_nonneg.mpr h0
              have hcast : (((⌊dayCap profile.availableHoursPerDay day.weekday -
                  (day.totalMinutes : ℚ)⌋).toNat : ℕ) : ℚ) =
                  ((⌊dayCap profile.availableHoursPerDay day.weekday -
                    (day.totalMinutes : ℚ)⌋ : ℤ) : ℚ) := by
                rw [← Int.toNat_of_nonneg hfl]
                simp
              rw [hcast]
              exact Int.floor_le _
            · rw [if_neg hc]
              exact not_lt.mp hc

theorem placeSession_good (profile : StudentProfile) (sub : Subject) (mps : ℕ)
    (st : List DayPlan × ℕ) (i : ℕ)
    (hgood : ∀ d ∈ st.1, GoodDay profile.availableHoursPerDay d) :
    ∀ d ∈ (placeSession profile sub mps st i).1, GoodDay profile.availableHoursPerDay d := by
  rcases placeSession_cases profile sub mps st i with heq | ⟨day, actual, hq, h15, hle, heq⟩
  · rw [heq]; exact hgood
  · rw [heq]
    intro d hd
    rcases List.mem_or_eq_of_mem_set hd with hmem | rfl
    · exact hgood d hmem
    · have hday := hgood day (List.get?_mem hq)
      constructor
      · show nonBufferMinutes _ = day.totalMinutes + actual
        rw [nonBufferMinutes]
        show ((List.filter _ (day.tasks ++ (mkSessionTasks sub st.2 actual).1)).map _).sum = _
        rw [List.filter_append, List.map_append, List.sum_append,
          List.filter_eq_self.mpr (mkSessionTasks_nonBuffer sub st.2 actual),
          mkSessionTasks_sum]
        have := hday.1
        rw [nonBufferMinutes] at this
        rw [this]
      · show ((day.totalMinutes + actual : ℕ) : ℚ) ≤
          dayCap profile.availableHoursPerDay day.weekday
        push_cast
        linarith [hday.2, hle]

theorem placeSubject_good (profile : StudentProfile) (st : List DayPlan × ℕ) (sub : Subject)
    (hgood : ∀ d ∈ st.1, GoodDay profile.availableHoursPerDay d) :
    ∀ d ∈ (placeSubject profile st sub).1, GoodDay profile.availableHoursPerDay d := by
  by_cases halloc : sub.allocatedHours.getD 0 ≤ 0
  · simp only [placeSubject, if_pos halloc]
    exact hgood
  · simp only [placeSubject, if_neg halloc]
    exact foldl_preserve (placeSession profile sub _)
      (fun b a hb => placeSession_good profile sub _ b a hb) _ st hgood

theorem nonBufferMinutes_bufferize (hours : ℚ) (d : DayPlan) :
    nonBufferMinutes (bufferize hours d) = nonBufferMinutes d := by
  by_cases h : 20 < (⌊max 0 (dayCap hours d.weekday - (d.totalMinutes : ℚ))⌋).toNat
  · simp only [bufferize, if_pos h, nonBufferMinutes, List.filter_append]
    simp
  · simp only [bufferize, if_neg h]

theorem weekday_bufferize (hours : ℚ) (d : DayPlan) :
    (bufferize hours d).weekday = d.weekday := by
  by_cases h : 20 < (⌊max 0 (dayCap hours d.weekday - (d.totalMinutes : ℚ))⌋).toNat
  · simp only [bufferize, if_pos h]
  · simp only [bufferize, if_neg h]

/-- C4: every day of a plan produced by `generateWeeklyPlan` keeps the
summed minutes of its non-buffer tasks within
`dailyHours * intensityMultiplier * 60` for the weekday multipliers
Sunday 0.5, Saturday 0.7, Wednesday and Thursday 1.1, other days 1.0
(the rebalance over-allocation is the only operation that may later
break this bound — see the rebalance theorems). -/
theorem weekly_plan_respects_daily_caps (subjects : List Subject) (profile : StudentProfile)
    (todayWD : ℕ) (todayNum : ℤ) (nextId : ℕ) (hh : 0 ≤ profile.availableHoursPerDay) :
    ((getDayProfile 0).2 = 1 / 2 ∧ (getDayProfile 6).2 = 7 / 10 ∧
      (getDayProfile 3).2 = 11 / 10 ∧ (getDayProfile 4).2 = 11 / 10 ∧
      (getDayProfile 1).2 = 1 ∧ (getDayProfile 2).2 = 1 ∧ (getDayProfile 5).2 = 1) ∧
    ∀ dp ∈ (generateWeeklyPlan subjects profile todayWD todayNum nextId).days,
      (nonBufferMinutes dp : ℚ) ≤
        profile.availableHoursPerDay * (getDayProfile dp.weekday).2 * 60 := by
  refine ⟨⟨rfl, rfl, rfl, rfl, rfl, rfl, rfl⟩, ?_⟩
  intro dp hdp
  have hgen : (generateWeeklyPlan subjects profile todayWD todayNum nextId).days =
      ((sortByRank99Asc subjects).foldl (placeSubject profile)
        (initDays todayWD todayNum, nextId)).1.map
        (bufferize profile.availableHoursPerDay) := rfl
  rw [hgen] at hdp
  obtain ⟨d0, hd0, rfl⟩ := List.mem_map.mp hdp
  have hg : ∀ d ∈ ((sortByRank99Asc subjects).foldl (placeSubject profile)
      (initDays todayWD todayNum, nextId)).1, GoodDay profile.availableHoursPerDay d :=
    foldl_preserve (placeSubject profile)
      (fun b a hb => placeSubject_good profile b a hb) _ _
      (initDays_good profile.availableHoursPerDay hh todayWD todayNum)
  have hgd := hg d0 hd0
  rw [nonBufferMinutes_bufferize, weekday_bufferize, hgd.1]
  calc ((d0.totalMinutes : ℕ) : ℚ) ≤ dayCap profile.availableHoursPerDay d0.weekday := hgd.2
    _ = profile.availableHoursPerDay * (getDayProfile d0.weekday).2 * 60 := by
        rw [dayCap]; ring

/-- Witness for C4 at the concrete profile with 4 daily hours. -/
theorem weekly_plan_respects_daily_caps_witness :
    ((0 : ℚ) ≤ ceProfile.availableHoursPerDay) ∧
    (((getDayProfile 0).2 = 1 / 2 ∧ (getDayProfile 6).2 = 7 / 10 ∧
      (getDayProfile 3).2 = 11 / 10 ∧ (getDayProfile 4).2 = 11 / 10 ∧
      (getDayProfile 1).2 = 1 ∧ (getDayProfile 2).2 = 1 ∧ (getDayProfile 5).2 = 1) ∧
    ∀ dp ∈ (generateWeeklyPlan [] ceProfile 0 0 0).days,
      (nonBufferMinutes dp : ℚ) ≤
        ceProfile.availableHoursPerDay * (getDayProfile dp.weekday).2 * 60) :=
  ⟨by norm_num [ceProfile],
    weekly_plan_respects_daily_caps [] ceProfile 0 0 0 (by norm_num [ceProfile])⟩

end Recap
